import Mathlib

/-!
Shallow embedding of the Presence Graph inference engine
(custom_components/presence_graph: graph_engine.py, utils.py, model.py,
const.py).

Modelling conventions:
* Python floats are modelled as exact rationals (`ℚ`).
* Python dicts keyed by id are modelled as insertion-ordered association
  lists (`List (String × _)`) where the structure of the dict matters
  (spaces, links), and as total functions where only lookup matters
  (scores, occupied, the entity index, adjacency).  The engine keeps the
  key set of every per-space dict equal to the space-id set, so the
  function model loses nothing.
* The `float("-inf")` sentinel stored in `last_event_ts` is modelled as
  `Option ℚ` with `none` standing for `-inf`.
* Python `set` values are modelled as duplicate-free lists.
* The two `while` loops of `_count_clusters` are modelled with an explicit
  fuel argument; the fuel passed by `count_clusters`/`countLoop`
  (`spaces.length` and `1 + rest.length`) is proved sufficient below, so
  the fueled runs compute exactly what the unbounded loops compute.
* `_link_entities` is omitted: the engine only ever writes to it.
-/

namespace PresenceGraph

/- Batteries marks the rational-number operations irreducible, which stops
`decide` from evaluating concrete engine runs; restore the default
reducibility for this file. -/
attribute [local semireducible] Rat.add Rat.sub Rat.mul Rat.inv

/-! ### Constants (const.py) -/

def DEFAULT_TIMEOUT : ℚ := 120

def DEFAULT_TRAVERSAL_LATENCY : ℚ := 8

def DEFAULT_DECAY_THRESHOLD : ℚ := 1/5

def MIN_EVENT_DURATION : ℚ := 1/2

def LINK_EVENT_DEBOUNCE : ℚ := 2

def ATTR_REASON_SENSOR : String := "sensor"

def ATTR_REASON_LINK : String := "link_event"

def ATTR_REASON_DECAY : String := "decay"

def ATTR_REASON_FORCED : String := "manual_override"

/-! ### Home Assistant state values and predicates (utils.py) -/

/-- A scalar Home Assistant state value: bool, number or string. -/
inductive SVal where
  | b (v : Bool)
  | num (v : ℚ)
  | s (v : String)
deriving DecidableEq

/-- ASCII lower-casing of one character (`str.lower()` restricted to the
ASCII range that the recognised keyword sets use). -/
def lowerChar (c : Char) : Char :=
  if 65 ≤ c.toNat ∧ c.toNat ≤ 90 then Char.ofNat (c.toNat + 32) else c

/-- `value.lower()`. -/
def lowerStr (s : String) : String := ⟨s.data.map lowerChar⟩

/-- `is_on_state` from utils.py. -/
def is_on_state : SVal → Bool
  | .b v => v
  | .num v => decide (0 < v)
  | .s v => decide (lowerStr v ∈ ["on", "open", "true", "home", "locked", "unlocked"])

/-- `state_is_locked` from utils.py (numbers are not locked-like). -/
def state_is_locked : SVal → Bool
  | .b v => v
  | .num _ => false
  | .s v => decide (lowerStr v ∈ ["on", "locked", "true"])

/-- `sorted_unique` from utils.py: de-duplicate keeping first appearance order. -/
def sorted_unique (items : List String) : List String :=
  items.foldl (fun acc item => if item ∈ acc then acc else acc ++ [item]) []

/-- Worker for `ensure_unique_ids`, carrying the `seen` set. -/
def ensureUniqueGo (seen : List String) : List String → Except String Unit
  | [] => .ok ()
  | item :: rest =>
    if item ∈ seen then .error ("Duplicate identifier: " ++ item)
    else ensureUniqueGo (item :: seen) rest

/-- `ensure_unique_ids` from utils.py: error on the first repeated id. -/
def ensure_unique_ids (items : List String) : Except String Unit :=
  ensureUniqueGo [] items

/-! ### Data model (model.py) -/

/-- `Space` dataclass. -/
structure Space where
  id : String
  name : String
  include_in_total : Bool := true
  motion_entities : List String := []
  presence_entities : List String := []
  timeout_s : ℚ := 120
deriving DecidableEq

/-- `Link` dataclass. -/
structure Link where
  id : String
  name : String
  from_space : String
  to_space : String
  motion_entities : List String := []
  contact_entities : List String := []
  lock_entities : List String := []
  traversal_latency_s : ℚ := 8
deriving DecidableEq

/-- `PresenceState` dataclass.  The per-space dicts always have exactly the
current space ids as keys, so they are modelled as total functions. -/
structure PresenceState where
  occupied : String → Bool
  scores : String → ℚ
  total_estimated : ℤ
  last_event_ts : String → Option ℚ
  space_counts : String → ℕ

/-- `GraphEvent` dataclass (graph_engine.py). -/
structure GraphEvent where
  entity_id : String
  new_state : SVal
  old_state : Option SVal := none
  timestamp : ℚ
  duration : Option ℚ := none

/-- `GraphUpdate` dataclass (graph_engine.py). -/
structure GraphUpdate where
  state : PresenceState
  changed : List String
  reason : String
  source_entity_id : Option String := none
  space : Option String := none
  link : Option String := none

/-- The entity-index tag: first component of the `(kind, target_id)` pairs. -/
inductive EntityKind where
  | space
  | link_motion
  | link_contact
  | link_lock
deriving DecidableEq

/-! ### Dict helpers -/

/-- Pointwise update of a function-modelled dict. -/
def fupd {α : Type} (f : String → α) (k : String) (v : α) : String → α :=
  fun x => if x = k then v else f x

/-- One insertion of a Python dict build: overwrite in place if the key is
present (keeping its position), otherwise append. -/
def dictInsert {α : Type} (l : List (String × α)) (k : String) (v : α) :
    List (String × α) :=
  if l.any (fun p => p.1 = k) then l.map (fun p => if p.1 = k then (k, v) else p)
  else l ++ [(k, v)]

/-- `{key(x): x for x in items}`: Python dict comprehension (later wins). -/
def buildDict {α : Type} (key : α → String) (items : List α) : List (String × α) :=
  items.foldl (fun acc it => dictInsert acc (key it) it) []

/-- Association-list lookup (`d[k]` / `d.get(k)`). -/
def lookupDict {α : Type} (l : List (String × α)) (k : String) : Option α :=
  (l.find? (fun p => p.1 = k)).map (·.2)

/-! ### The static model owned by the engine -/

/-- The model part of the engine state after `set_model`: `_spaces`,
`_links`, `_adjacency` and `_entity_index`. -/
structure Model where
  spaces : List (String × Space)
  links : List (String × Link)
  adjacency : String → List String
  entity_index : String → Option (EntityKind × String)

def spaceIds (m : Model) : List String := m.spaces.map (·.1)

def lookupSpace (m : Model) (sid : String) : Option Space := lookupDict m.spaces sid

def lookupLink (m : Model) (lid : String) : Option Link := lookupDict m.links lid

/-- The dynamic engine state: `_state`, `_locked_links`, `_last_link_event`
and `_last_reason`. -/
structure EngineState where
  state : PresenceState
  locked_links : List String
  last_link_event : String → Option ℚ
  last_reason : String

/-- `reset_state`: zero out the dynamic state. -/
def reset_state (m : Model) : EngineState :=
  { state :=
      { occupied := fun _ => false
        scores := fun _ => 0
        total_estimated := 0
        last_event_ts := fun _ => none
        space_counts := fun _ => 0 }
    locked_links := []
    last_link_event := fun _ => none
    last_reason := ATTR_REASON_DECAY }

/-! ### set_model -/

/-- Add `b` to the neighbour set of `a`. -/
def addNeighbor (adj : String → List String) (a b : String) : String → List String :=
  fun x => if x = a then (adj a).insert b else adj x

/-- Register a list of entities in the entity index under `(kind, target)`;
later registrations overwrite earlier ones. -/
def registerList (idx : String → Option (EntityKind × String)) (entities : List String)
    (kind : EntityKind) (target : String) : String → Option (EntityKind × String) :=
  entities.foldl (fun acc e => fupd acc e (some (kind, target))) idx

/-- The body of the per-link loop of `set_model`: skip links whose endpoints
are not both space ids, otherwise extend adjacency (both directions) and
register the link's motion/contact/lock entities. -/
def linkStep (sids : List String)
    (st : (String → List String) × (String → Option (EntityKind × String)))
    (p : String × Link) :
    (String → List String) × (String → Option (EntityKind × String)) :=
  if p.2.from_space ∈ sids ∧ p.2.to_space ∈ sids then
    let adj := addNeighbor (addNeighbor st.1 p.2.from_space p.2.to_space)
      p.2.to_space p.2.from_space
    let i1 := registerList st.2 (sorted_unique p.2.motion_entities) .link_motion p.1
    let i2 := registerList i1 (sorted_unique p.2.contact_entities) .link_contact p.1
    let i3 := registerList i2 (sorted_unique p.2.lock_entities) .link_lock p.1
    (adj, i3)
  else st

/-- The space-entity pass of the index build: motion+presence entities of
every space, de-duplicated, indexed as `("space", space.id)`. -/
def buildSpaceIndex (space_map : List (String × Space)) :
    String → Option (EntityKind × String) :=
  space_map.foldl
    (fun acc p =>
      registerList acc (sorted_unique (p.2.motion_entities ++ p.2.presence_entities))
        .space p.1)
    (fun _ => none)

/-- The model value `set_model` commits: dicts keyed by id (later wins),
space entities indexed before link entities, adjacency only from links
whose two endpoints exist. -/
def mkModel (spaces : List Space) (links : List Link) : Model :=
  let space_map := buildDict Space.id spaces
  let link_map := buildDict Link.id links
  let built := link_map.foldl (linkStep (space_map.map (·.1)))
    ((fun _ => []), buildSpaceIndex space_map)
  ⟨space_map, link_map, built.1, built.2⟩

/-- `set_model` followed by the `reset_state` it performs.  Mirrors the
Python: build the id-keyed dicts, run `ensure_unique_ids` on them (note:
on the dicts, i.e. on their key lists), then commit the new model and
reset the dynamic state. -/
def set_model (spaces : List Space) (links : List Link) :
    Except String (Model × EngineState) := do
  let space_map := buildDict Space.id spaces
  ensure_unique_ids (space_map.map (·.1))
  let link_map := buildDict Link.id links
  ensure_unique_ids (link_map.map (·.1))
  let m := mkModel spaces links
  return (m, reset_state m)

/-! ### Decay -/

/-- `space.timeout_s or DEFAULT_TIMEOUT` (`0` is falsy in Python). -/
def effTimeout (sp : Space) : ℚ :=
  if sp.timeout_s = 0 then DEFAULT_TIMEOUT else sp.timeout_s

/-- The target score computed by `_apply_decay` for one space:
`0` if `elapsed ≥ timeout`, else `max 0 (1 - elapsed/timeout)`, with
`elapsed = max 0 (now - last_event_ts)` and `-inf` giving `0`. -/
def decayTarget (sp : Space) (last : Option ℚ) (now : ℚ) : ℚ :=
  match last with
  | none => 0
  | some t =>
    let timeout := effTimeout sp
    let elapsed := max 0 (now - t)
    if timeout ≤ elapsed then 0 else max 0 (1 - elapsed / timeout)

/-- One iteration of the `_apply_decay` loop: overwrite the score only if
the target is strictly lower, re-deriving `occupied` and zeroing the count
when no longer occupied. -/
def decayOne (θ : ℚ) (now : ℚ) (ps : PresenceState) (p : String × Space) :
    PresenceState :=
  let new_score := decayTarget p.2 (ps.last_event_ts p.1) now
  if new_score < ps.scores p.1 then
    let occ : Bool := decide (θ < new_score)
    { ps with
      scores := fupd ps.scores p.1 new_score
      occupied := fupd ps.occupied p.1 occ
      space_counts := if occ then ps.space_counts else fupd ps.space_counts p.1 0 }
  else ps

/-- `_apply_decay`: the decay pass over all spaces. -/
def apply_decay (m : Model) (θ : ℚ) (ps : PresenceState) (now : ℚ) : PresenceState :=
  m.spaces.foldl (decayOne θ now) ps

/-! ### Space activation, lock handling, traversal propagation -/

/-- `_activate_space`. -/
def activate_space (m : Model) (ps : PresenceState) (sid : String) (ts : ℚ) :
    PresenceState × List String :=
  if (lookupSpace m sid).isNone then (ps, [])
  else
    ({ ps with
        scores := fupd ps.scores sid 1
        occupied := fupd ps.occupied sid true
        last_event_ts := fupd ps.last_event_ts sid (some ts)
        space_counts := fupd ps.space_counts sid 1 },
     [sid])

/-- `_handle_link_lock`. -/
def handle_link_lock (es : EngineState) (link_id : String) (event : GraphEvent) :
    EngineState × String :=
  if state_is_locked event.new_state then
    ({ es with locked_links := es.locked_links.insert link_id }, ATTR_REASON_LINK)
  else
    ({ es with locked_links := es.locked_links.erase link_id }, ATTR_REASON_LINK)

/-- `link.traversal_latency_s or DEFAULT_TRAVERSAL_LATENCY` (`0` is falsy). -/
def effLatency (l : Link) : ℚ :=
  if l.traversal_latency_s = 0 then DEFAULT_TRAVERSAL_LATENCY else l.traversal_latency_s

/-- `_compute_boost`. -/
def compute_boost (m : Model) (θ : ℚ) (ps : PresenceState) (sid : String) (ts : ℚ) :
    PresenceState × Bool :=
  if (lookupSpace m sid).isNone then (ps, false)
  else
    let prev_score := ps.scores sid
    let new_score := max prev_score (3/5)
    if new_score ≤ prev_score + 1/1000000 then (ps, false)
    else
      let s' := min 1 new_score
      let occ : Bool := decide (θ < s')
      ({ ps with
          scores := fupd ps.scores sid s'
          last_event_ts := fupd ps.last_event_ts sid (some ts)
          occupied := fupd ps.occupied sid occ
          space_counts := if occ then fupd ps.space_counts sid 1 else ps.space_counts },
       true)

/-- Body of the candidate loop in `_handle_link_activity`: `cand.1` is the
source, `cand.2` the target.  `last_event_ts.get(source, 0.0)` never falls
back to the default because the dict's keys cover all spaces; the gate
`last_activation > -inf` is the `some` match. -/
def boost_step (m : Model) (θ : ℚ) (ts latency : ℚ)
    (acc : PresenceState × List String) (cand : String × String) :
    PresenceState × List String :=
  match acc.1.last_event_ts cand.1 with
  | none => acc
  | some last_activation =>
    if ts - last_activation ≤ latency then
      let r := compute_boost m θ acc.1 cand.2 ts
      if r.2 then (r.1, acc.2 ++ [cand.2]) else (r.1, acc.2)
    else acc

/-- `_handle_link_activity`: unknown link → nothing; locked → nothing;
debounced → nothing; otherwise record the event time and try to propagate
in both directions. -/
def handle_link_activity (m : Model) (θ : ℚ) (es : EngineState) (link_id : String)
    (ts : ℚ) : EngineState × List String :=
  match lookupLink m link_id with
  | none => (es, [])
  | some link =>
    if link_id ∈ es.locked_links then (es, [])
    else
      let debounced : Bool :=
        match es.last_link_event link_id with
        | some last => decide (ts - last < LINK_EVENT_DEBOUNCE)
        | none => false
      if debounced then (es, [])
      else
        let es1 := { es with last_link_event := fupd es.last_link_event link_id (some ts) }
        let latency := effLatency link
        let candidates := [(link.from_space, link.to_space), (link.to_space, link.from_space)]
        let r := candidates.foldl (boost_step m θ ts latency) (es1.state, [])
        ({ es1 with state := r.1 }, sorted_unique r.2)

/-! ### Cluster counting (_count_clusters) -/

/-- The inner `for neighbour in self._adjacency.get(node, set())` loop of
`_count_clusters`: returns the updated `(visited, remaining, queue-appends)`. -/
def scanNeighbors : List String → List String → List String → List String →
    List String × List String × List String
  | [], visited, remaining, adds => (visited, remaining, adds)
  | n :: ns, visited, remaining, adds =>
    if n ∈ visited ∨ n ∉ remaining then scanNeighbors ns visited remaining adds
    else scanNeighbors ns (n :: visited) (remaining.erase n) (adds ++ [n])

/-- The inner `while queue` loop of `_count_clusters`, fueled.  Each
iteration pops the queue front and scans its neighbours.  Any fuel
`≥ queue.length + remaining.length` is sufficient (proved below). -/
def bfsRun (adj : String → List String) :
    Nat → List String → List String → List String → List String × List String
  | 0, _, visited, remaining => (visited, remaining)
  | _ + 1, [], visited, remaining => (visited, remaining)
  | fuel + 1, node :: rest, visited, remaining =>
    let t := scanNeighbors (adj node) visited remaining []
    bfsRun adj fuel (rest ++ t.2.2) t.1 t.2.1

/-- The outer `while remaining` loop of `_count_clusters`, fueled.  Pops an
element (modelled as the list head), runs one BFS, counts one cluster.
Any fuel `≥ remaining.length` is sufficient (proved below). -/
def countLoop (adj : String → List String) :
    Nat → List String → List String → ℕ
  | 0, _, _ => 0
  | _ + 1, [], _ => 0
  | fuel + 1, current :: rest, visited =>
    let t := bfsRun adj (1 + rest.length) [current] (current :: visited) rest
    1 + countLoop adj fuel t.2 t.1

/-- `_count_clusters`. -/
def count_clusters (m : Model) (spaces : List String) : ℕ :=
  countLoop m.adjacency spaces.length spaces []

/-! ### Total estimation (_recalculate_totals) -/

/-- The `occupied_spaces` list of `_recalculate_totals`. -/
def occupiedList (m : Model) (ps : PresenceState) : List String :=
  (spaceIds m).filter (fun sid => ps.occupied sid)

/-- The `included` list of `_recalculate_totals`. -/
def includedList (m : Model) (ps : PresenceState) : List String :=
  (occupiedList m ps).filter
    (fun sid => ((lookupSpace m sid).map Space.include_in_total).getD false)

/-- The candidate total before the smoothing clamp:
`max(self._count_clusters(included), 1)`. -/
def recalcCandidate (m : Model) (ps : PresenceState) : ℤ :=
  max (count_clusters m (includedList m ps) : ℤ) 1

/-- `_recalculate_totals`. -/
def recalculate_totals (m : Model) (ps : PresenceState) : PresenceState :=
  let occupied_spaces := occupiedList m ps
  let included := includedList m ps
  let ps1 := { ps with
    space_counts := fun sid => if sid ∈ occupied_spaces then 1 else 0 }
  if occupied_spaces = [] then { ps1 with total_estimated := 0 }
  else if included = [] then { ps1 with total_estimated := 0 }
  else
    let estimated := recalcCandidate m ps
    let previous := ps1.total_estimated
    { ps1 with
      total_estimated := if previous + 1 < estimated then previous + 1 else estimated }

/-! ### process_event, force_space_state, set_space_inclusion -/

/-- The dispatch step of `process_event` (the `if event_type == ...` chain):
returns the engine state after the event-specific transition, the changed
space ids and the reason this call would report. -/
def dispatch_event (m : Model) (θ : ℚ) (es1 : EngineState) (event : GraphEvent)
    (event_type : EntityKind) (target_id : String) (ts : ℚ) :
    EngineState × List String × String :=
  match event_type with
  | .space =>
    if is_on_state event.new_state then
      let r := activate_space m es1.state target_id ts
      ({ es1 with state := r.1 }, r.2, ATTR_REASON_SENSOR)
    else (es1, [], ATTR_REASON_DECAY)
  | .link_lock =>
    let r := handle_link_lock es1 target_id event
    (r.1, [], r.2)
  | .link_motion =>
    let r := handle_link_activity m θ es1 target_id ts
    (r.1, r.2, ATTR_REASON_LINK)
  | .link_contact =>
    let r := handle_link_activity m θ es1 target_id ts
    (r.1, r.2, ATTR_REASON_LINK)

/-- `process_event`. -/
def process_event (m : Model) (θ : ℚ) (es : EngineState) (event : GraphEvent) :
    EngineState × GraphUpdate :=
  match m.entity_index event.entity_id with
  | none =>
    let ps := apply_decay m θ es.state event.timestamp
    ({ es with state := ps }, { state := ps, changed := [], reason := ATTR_REASON_DECAY })
  | some (event_type, target_id) =>
    let ts := event.timestamp
    let es1 := { es with state := apply_decay m θ es.state ts }
    let shortPulse : Bool :=
      match event.duration with
      | some d => decide (d < MIN_EVENT_DURATION)
      | none => false
    if shortPulse then
      (es1, { state := es1.state, changed := [], reason := ATTR_REASON_DECAY })
    else
      let step := dispatch_event m θ es1 event event_type target_id ts
      let es2 := step.1
      let changed := step.2.1
      let reason := step.2.2
      -- `if changed: last_reason := reason; recalc  else: recalc; reason := last_reason`
      -- (totals are recomputed either way and do not read `last_reason`)
      let es3 := { es2 with
        state := recalculate_totals m es2.state
        last_reason := if changed.isEmpty then es2.last_reason else reason }
      let reason' := if changed.isEmpty then es2.last_reason else reason
      (es3,
       { state := es3.state
         changed := changed
         reason := reason'
         source_entity_id := some event.entity_id
         space := if event_type = .space then some target_id else none
         link := if event_type ≠ .space then some target_id else none })

/-- `force_space_state`.  `now` stands for `self._time_func()`; the Python
`reason` keyword argument defaults to `ATTR_REASON_FORCED`. -/
def force_space_state (m : Model) (θ : ℚ) (es : EngineState) (space_id : String)
    (occupied : Bool) (score : Option ℚ) (now : ℚ) (reason : String) :
    EngineState × GraphUpdate :=
  if (lookupSpace m space_id).isNone then
    (es, { state := es.state, changed := [], reason := reason })
  else
    let score_to_apply := max 0 (min 1 (score.getD (if occupied then 1 else 0)))
    let ps1 := { es.state with
      scores := fupd es.state.scores space_id score_to_apply
      occupied := fupd es.state.occupied space_id
        (if occupied then true else decide (θ < score_to_apply)) }
    let ps2 :=
      if occupied then
        { ps1 with last_event_ts := fupd ps1.last_event_ts space_id (some now) }
      else ps1
    let ps3 := recalculate_totals m ps2
    ({ es with state := ps3 },
     { state := ps3, changed := [space_id], reason := reason, space := some space_id })

/-- `set_space_inclusion`: mutate the space's flag in place and recompute
totals; unknown id is a silent no-op. -/
def set_space_inclusion (m : Model) (ps : PresenceState) (space_id : String)
    (inc : Bool) : Model × PresenceState :=
  if (lookupSpace m space_id).isSome then
    let upd := fun (p : String × Space) =>
      if p.1 = space_id then (p.1, { p.2 with include_in_total := inc }) else p
    let m' := { m with spaces := m.spaces.map upd }
    (m', recalculate_totals m' ps)
  else (m, ps)

/-! ### Specification-side connectivity (from the spec's words)

Modelled from the spec: "two such spaces belong to the same component
exactly when they are joined by a path of adjacency edges all of whose
nodes are themselves occupied and included"; the candidate total is the
number of such connected components. -/

/-- One adjacency edge whose two endpoints both lie in `S`. -/
def stepIn (adj : String → List String) (S : Finset String) (a b : String) : Prop :=
  a ∈ S ∧ b ∈ S ∧ b ∈ adj a

/-- Joined by a path of adjacency edges all of whose nodes lie in `S`. -/
def ReachIn (adj : String → List String) (S : Finset String) : String → String → Prop :=
  Relation.ReflTransGen (stepIn adj S)

open Classical in
/-- The connected component of `x` inside `S`. -/
noncomputable def componentOf (adj : String → List String) (S : Finset String)
    (x : String) : Finset String :=
  S.filter (fun y => ReachIn adj S x y)

open Classical in
/-- The number of connected components of `S`. -/
noncomputable def numComponents (adj : String → List String) (S : Finset String) : ℕ :=
  (S.image (fun x => componentOf adj S x)).card

/-! ### Concrete fixtures used by witnesses and counterexamples -/

def fallbackModel : Model := ⟨[], [], fun _ => [], fun _ => none⟩

def demoLiving : Space :=
  { id := "living", name := "Living", motion_entities := ["m_living"], timeout_s := 60 }

def demoKitchen : Space :=
  { id := "kitchen", name := "Kitchen", motion_entities := ["m_kitchen"], timeout_s := 90 }

def demoLink : Link :=
  { id := "lk", name := "LK", from_space := "living", to_space := "kitchen",
    motion_entities := ["m_link"], lock_entities := ["lock_link"] }

/-- A ghost link whose `to_space` does not exist, carrying its own entity. -/
def demoGhostLink : Link :=
  { id := "ghost", name := "Ghost", from_space := "living", to_space := "garage",
    motion_entities := ["m_ghost"] }

def demoME : Model × EngineState :=
  match set_model [demoLiving, demoKitchen] [demoLink] with
  | .ok me => me
  | .error _ => (fallbackModel, reset_state fallbackModel)

def demoGhostME : Model × EngineState :=
  match set_model [demoLiving, demoKitchen] [demoLink, demoGhostLink] with
  | .ok me => me
  | .error _ => (fallbackModel, reset_state fallbackModel)

/-- Two spaces sharing the id "a": input for the duplicate-identifier claim. -/
def dupSpaceA : Space := { id := "a", name := "First" }

def dupSpaceB : Space := { id := "a", name := "Second" }

/-- The (successful!) result of `set_model` on the duplicated input. -/
def dupME : Model × EngineState :=
  match set_model [dupSpaceA, dupSpaceB] [] with
  | .ok me => me
  | .error _ => (fallbackModel, reset_state fallbackModel)

/-- The spec's threshold invariant `occupied[s] == (scores[s] > 0.2)`. -/
def ThresholdInv (ps : PresenceState) (s : String) : Prop :=
  ps.occupied s = decide (DEFAULT_DECAY_THRESHOLD < ps.scores s)

/-- Forced update that breaks the threshold invariant: occupied with score 0. -/
def cexForced : EngineState :=
  (force_space_state demoME.1 DEFAULT_DECAY_THRESHOLD demoME.2 "living" true (some 0) 0
    ATTR_REASON_FORCED).1

/-- A non-forced transition (unknown entity, so only the decay pass runs)
performed after the invariant was broken. -/
def cexAfterDecay : EngineState :=
  (process_event demoME.1 DEFAULT_DECAY_THRESHOLD cexForced
    { entity_id := "zzz", new_state := .s "off", timestamp := 1 }).1

/-- An engine state whose total is an arbitrary `k` but with no occupied
space, used to exhibit arbitrary total drops. -/
def totalState (k : ℤ) : EngineState :=
  { demoME.2 with state := { demoME.2.state with total_estimated := k } }

/-- Engine with the demo link locked (lock entity fired "locked" at t=0). -/
def lockedES : EngineState :=
  (process_event demoME.1 DEFAULT_DECAY_THRESHOLD demoME.2
    { entity_id := "lock_link", new_state := .s "locked", timestamp := 0 }).1

/-- Link motion on the locked link at t=5. -/
def lockedAfterMotion : EngineState :=
  (process_event demoME.1 DEFAULT_DECAY_THRESHOLD lockedES
    { entity_id := "m_link", new_state := .s "on", timestamp := 5 }).1

/-- Living activated at t=0 (sensor "on"). -/
def livingActive : EngineState :=
  (process_event demoME.1 DEFAULT_DECAY_THRESHOLD demoME.2
    { entity_id := "m_living", new_state := .s "on", timestamp := 0 }).1

/-- Kitchen forced to score 0.6 - 1/2000000 (inside the epsilon band) while
living is freshly active. -/
def epsilonBandES : EngineState :=
  (force_space_state demoME.1 DEFAULT_DECAY_THRESHOLD livingActive "kitchen" true
    (some (1199999/2000000)) 0 ATTR_REASON_FORCED).1

/-- Link motion at t=1 on the unlocked link: a propagation attempt whose
target sits in the epsilon band. -/
def epsilonBandAfter : EngineState × GraphUpdate :=
  process_event demoME.1 DEFAULT_DECAY_THRESHOLD epsilonBandES
    { entity_id := "m_link", new_state := .s "on", timestamp := 1 }

/-- A lock event processed by the fresh demo engine. -/
def lockUpdate : EngineState × GraphUpdate :=
  process_event demoME.1 DEFAULT_DECAY_THRESHOLD demoME.2
    { entity_id := "lock_link", new_state := .s "locked", timestamp := 0 }

/-- Engine after living was activated at t=0 and link motion fired at t=1
(records the link's last-event time and boosts kitchen). -/
def propagatedES : EngineState :=
  (process_event demoME.1 DEFAULT_DECAY_THRESHOLD livingActive
    { entity_id := "m_link", new_state := .s "on", timestamp := 1 }).1

/-- The duration gate of `process_event`: the event is not a short pulse. -/
def DurationOK (ev : GraphEvent) : Prop :=
  match ev.duration with
  | some d => ¬ d < MIN_EVENT_DURATION
  | none => True

/-! ## Basic lemmas -/

theorem fupd_same {α : Type} (f : String → α) (k : String) (v : α) :
    fupd f k v k = v := by simp [fupd]

theorem fupd_ne {α : Type} (f : String → α) (k : String) (v : α) {x : String}
    (h : x ≠ k) : fupd f k v x = f x := by simp [fupd, h]

theorem recalculate_totals_occupied (m : Model) (ps : PresenceState) :
    (recalculate_totals m ps).occupied = ps.occupied := by
  simp only [recalculate_totals]
  split_ifs <;> rfl

theorem recalculate_totals_scores (m : Model) (ps : PresenceState) :
    (recalculate_totals m ps).scores = ps.scores := by
  simp only [recalculate_totals]
  split_ifs <;> rfl

theorem recalculate_totals_last_event_ts (m : Model) (ps : PresenceState) :
    (recalculate_totals m ps).last_event_ts = ps.last_event_ts := by
  simp only [recalculate_totals]
  split_ifs <;> rfl

theorem handle_link_lock_state (es : EngineState) (lid : String) (ev : GraphEvent) :
    (handle_link_lock es lid ev).1.state = es.state := by
  simp only [handle_link_lock]
  split_ifs <;> rfl

/-! ## set_model never fails and commits `mkModel` -/

theorem ensureUniqueGo_ok {seen : List String} {l : List String}
    (hd : ∀ x ∈ l, x ∉ seen) (hnd : l.Nodup) : ensureUniqueGo seen l = .ok () := by
  induction l generalizing seen with
  | nil => rfl
  | cons a l ih =>
    have ha : a ∉ seen := hd a (by simp)
    simp only [ensureUniqueGo, ha, if_false]
    refine ih (fun x hx => ?_) hnd.of_cons
    intro hmem
    rcases List.mem_cons.mp hmem with h | h
    · exact (List.nodup_cons.mp hnd).1 (h ▸ hx)
    · exact hd x (List.mem_cons_of_mem _ hx) h

theorem ensure_unique_ids_ok {l : List String} (hnd : l.Nodup) :
    ensure_unique_ids l = .ok () :=
  ensureUniqueGo_ok (by simp) hnd

theorem dictInsert_keys {α : Type} (l : List (String × α)) (k : String) (v : α) :
    (dictInsert l k v).map (·.1) =
      if l.any (fun p => p.1 = k) then l.map (·.1) else l.map (·.1) ++ [k] := by
  simp only [dictInsert]
  split_ifs with h
  · simp only [List.map_map]
    refine List.map_congr_left (fun p _ => ?_)
    by_cases hp : p.1 = k <;> simp [hp]
  · simp

theorem dictInsert_keys_nodup {α : Type} {l : List (String × α)} {k : String} {v : α}
    (h : (l.map (·.1)).Nodup) : ((dictInsert l k v).map (·.1)).Nodup := by
  rw [dictInsert_keys]
  split_ifs with hk
  · exact h
  · have hnk : k ∉ l.map (·.1) := by
      have hk' : ∀ x : α, (k, x) ∉ l := by simpa using hk
      intro hmem
      rcases List.mem_map.mp hmem with ⟨⟨pk, pv⟩, hp, he⟩
      simp only at he
      subst he
      exact hk' pv hp
    rw [List.nodup_append]
    refine ⟨h, List.nodup_singleton _, ?_⟩
    intro x hx hmem
    have : x = k := by simpa using hmem
    exact hnk (this ▸ hx)

theorem buildDict_keys_nodup {α : Type} (key : α → String) (items : List α) :
    ((buildDict key items).map (·.1)).Nodup := by
  suffices h : ∀ acc : List (String × α), (acc.map (·.1)).Nodup →
      ((items.foldl (fun acc it => dictInsert acc (key it) it) acc).map (·.1)).Nodup by
    exact h [] (by simp)
  induction items with
  | nil => intro acc h; simpa using h
  | cons a l ih =>
    intro acc h
    simpa using ih _ (dictInsert_keys_nodup h)

theorem set_model_eq (spaces : List Space) (links : List Link) :
    set_model spaces links =
      .ok (mkModel spaces links, reset_state (mkModel spaces links)) := by
  simp only [set_model, ensure_unique_ids_ok (buildDict_keys_nodup Space.id spaces),
    ensure_unique_ids_ok (buildDict_keys_nodup Link.id links)]
  rfl

theorem set_model_ok_elim {spaces : List Space} {links : List Link}
    {m : Model} {es : EngineState}
    (h : set_model spaces links = .ok (m, es)) :
    m = mkModel spaces links ∧ es = reset_state m := by
  rw [set_model_eq] at h
  injection h with h1
  injection h1 with hm hes
  exact ⟨hm.symm, by rw [← hes, hm]⟩

/-! ## The threshold invariant (claim C4) -/

theorem decayOne_thresholdInv {now : ℚ} {ps : PresenceState} {p : String × Space}
    {s : String} (h : ThresholdInv ps s) :
    ThresholdInv (decayOne DEFAULT_DECAY_THRESHOLD now ps p) s := by
  unfold ThresholdInv at h ⊢
  simp only [decayOne]
  by_cases hlt : decayTarget p.2 (ps.last_event_ts p.1) now < ps.scores p.1
  · rw [if_pos hlt]
    by_cases hs : s = p.1
    · subst hs; simp [fupd]
    · simpa [fupd, hs] using h
  · rw [if_neg hlt]; exact h

theorem apply_decay_thresholdInv {m : Model} {now : ℚ} {ps : PresenceState}
    {s : String} (h : ThresholdInv ps s) :
    ThresholdInv (apply_decay m DEFAULT_DECAY_THRESHOLD ps now) s := by
  unfold apply_decay
  induction m.spaces generalizing ps with
  | nil => simpa using h
  | cons p l ih => simpa using ih (decayOne_thresholdInv h)

theorem activate_space_thresholdInv {m : Model} {ps : PresenceState}
    {sid : String} {ts : ℚ} {s : String} (h : ThresholdInv ps s) :
    ThresholdInv (activate_space m ps sid ts).1 s := by
  unfold ThresholdInv at h ⊢
  simp only [activate_space]
  split_ifs with hn
  · exact h
  · by_cases hs : s = sid
    · subst hs; simp [fupd]; decide
    · simpa [fupd, hs] using h

theorem compute_boost_thresholdInv {m : Model} {ps : PresenceState}
    {sid : String} {ts : ℚ} {s : String} (h : ThresholdInv ps s) :
    ThresholdInv (compute_boost m DEFAULT_DECAY_THRESHOLD ps sid ts).1 s := by
  unfold ThresholdInv at h ⊢
  simp only [compute_boost]
  by_cases h1 : (lookupSpace m sid).isNone
  · rw [if_pos h1]; exact h
  · rw [if_neg h1]
    by_cases h2 : max (ps.scores sid) (3/5) ≤ ps.scores sid + 1/1000000
    · rw [if_pos h2]; exact h
    · rw [if_neg h2]
      by_cases hs : s = sid
      · subst hs; simp [fupd]
      · simpa [fupd, hs] using h

theorem boost_step_thresholdInv {m : Model} {ts latency : ℚ}
    {acc : PresenceState × List String} {c : String × String} {s : String}
    (h : ThresholdInv acc.1 s) :
    ThresholdInv (boost_step m DEFAULT_DECAY_THRESHOLD ts latency acc c).1 s := by
  unfold boost_step
  cases hle : acc.1.last_event_ts c.1 with
  | none => simpa using h
  | some t =>
    simp only []
    split_ifs with h1 h2
    · simpa using compute_boost_thresholdInv h
    · simpa using compute_boost_thresholdInv h
    · simpa using h

theorem foldl_boost_thresholdInv {m : Model} {ts latency : ℚ} {s : String} :
    ∀ (cands : List (String × String)) (acc : PresenceState × List String),
      ThresholdInv acc.1 s →
      ThresholdInv ((cands.foldl (boost_step m DEFAULT_DECAY_THRESHOLD ts latency) acc).1) s := by
  intro cands
  induction cands with
  | nil => intro acc h; simpa using h
  | cons c cs ih =>
    intro acc h
    simpa using ih _ (boost_step_thresholdInv h)

theorem handle_link_activity_thresholdInv {m : Model} {es : EngineState}
    {lid : String} {ts : ℚ} {s : String} (h : ThresholdInv es.state s) :
    ThresholdInv (handle_link_activity m DEFAULT_DECAY_THRESHOLD es lid ts).1.state s := by
  unfold handle_link_activity
  cases hl : lookupLink m lid with
  | none => simpa using h
  | some link =>
    dsimp only
    split_ifs with h1 h2
    · simpa using h
    · simpa using h
    · exact foldl_boost_thresholdInv _ _ h

theorem dispatch_event_thresholdInv {m : Model} {es1 : EngineState}
    {ev : GraphEvent} {k : EntityKind} {t : String} {ts : ℚ} {s : String}
    (h : ThresholdInv es1.state s) :
    ThresholdInv (dispatch_event m DEFAULT_DECAY_THRESHOLD es1 ev k t ts).1.state s := by
  cases k with
  | space =>
    simp only [dispatch_event]
    split_ifs with h1
    · simpa using activate_space_thresholdInv h
    · simpa using h
  | link_lock =>
    simpa [dispatch_event, handle_link_lock_state] using h
  | link_motion => simpa [dispatch_event] using handle_link_activity_thresholdInv h
  | link_contact => simpa [dispatch_event] using handle_link_activity_thresholdInv h

theorem recalculate_totals_thresholdInv {m : Model} {ps : PresenceState} {s : String}
    (h : ThresholdInv ps s) : ThresholdInv (recalculate_totals m ps) s := by
  unfold ThresholdInv at h ⊢
  rw [recalculate_totals_occupied, recalculate_totals_scores]
  exact h

/-- The state produced by one `process_event` call is the decayed state
(unknown entity or short pulse) or the recomputed totals over the dispatch
result applied to the decayed state. -/
theorem process_event_state_shape (m : Model) (θ : ℚ) (es : EngineState)
    (ev : GraphEvent) :
    (process_event m θ es ev).1.state = apply_decay m θ es.state ev.timestamp ∨
    ∃ k t, m.entity_index ev.entity_id = some (k, t) ∧
      (process_event m θ es ev).1.state =
        recalculate_totals m (dispatch_event m θ
          { es with state := apply_decay m θ es.state ev.timestamp } ev k t ev.timestamp).1.state := by
  unfold process_event
  cases hidx : m.entity_index ev.entity_id with
  | none => exact Or.inl rfl
  | some kt =>
    obtain ⟨k, t⟩ := kt
    dsimp only
    by_cases hsp : (match ev.duration with
        | some d => decide (d < MIN_EVENT_DURATION)
        | none => false) = true
    · rw [if_pos hsp]
      exact Or.inl rfl
    · rw [if_neg hsp]
      exact Or.inr ⟨k, t, rfl, rfl⟩

theorem process_event_thresholdInv {m : Model} {es : EngineState} {ev : GraphEvent}
    {s : String} (h : ThresholdInv es.state s) :
    ThresholdInv (process_event m DEFAULT_DECAY_THRESHOLD es ev).1.state s := by
  rcases process_event_state_shape m DEFAULT_DECAY_THRESHOLD es ev with hs | ⟨k, t, _, hs⟩
  · rw [hs]; exact apply_decay_thresholdInv h
  · rw [hs]
    exact recalculate_totals_thresholdInv
      (dispatch_event_thresholdInv (apply_decay_thresholdInv h))

/-! ## Claim C1 (code_bug): duplicate ids are silently collapsed -/

/-- C1: the claim says a repeated space id makes `set_model` fail with a
`DuplicateIdentifier` error.  On the code it does not: two spaces with the
same id "a" are accepted (`set_model` returns `ok`), the duplicate is
silently collapsed to a single entry and the later definition wins, because
`ensure_unique_ids` is run on the keys of the already de-duplicated dict. -/
theorem C1_duplicate_ids_not_rejected :
    set_model [dupSpaceA, dupSpaceB] [] = .ok dupME ∧
    dupME.1.spaces.map (fun p => p.1) = ["a"] ∧
    dupME.1.spaces.map (fun p => p.2.name) = ["Second"] :=
  ⟨rfl, by decide, by decide⟩

/-! ## Claim C4 (corrected): the threshold invariant -/

/-- C4 counterexample: force `living` occupied with score `0`, then run a
non-forced `process_event` (unknown entity, decay pass only).  After this
non-forced transition `occupied["living"]` is still `true` while the score
is `0`, so `occupied[s] == (scores[s] > 0.2)` fails — decay only rewrites
`occupied` when it lowers a score, so it never repairs the equivalence. -/
theorem C4_counterexample :
    cexAfterDecay.state.occupied "living" = true ∧
    cexAfterDecay.state.scores "living" = 0 ∧
    ¬ ThresholdInv cexAfterDecay.state "living" := by
  refine ⟨by decide, by decide, ?_⟩
  unfold ThresholdInv
  decide

/-- C4 (amended): the invariant `occupied[s] == (scores[s] > 0.2)` holds in
the state established by `set_model`, and it is preserved (per space) by
every `process_event` and `set_space_inclusion` call; it is not restored
once a forced update has broken it (see the counterexample). -/
theorem C4_threshold_invariant :
    (∀ spaces links m es, set_model spaces links = Except.ok (m, es) →
      ∀ s, ThresholdInv es.state s) ∧
    (∀ m es ev s, ThresholdInv es.state s →
      ThresholdInv (process_event m DEFAULT_DECAY_THRESHOLD es ev).1.state s) ∧
    (∀ m ps sid b s, ThresholdInv ps s →
      ThresholdInv (set_space_inclusion m ps sid b).2 s) := by
  refine ⟨?_, ?_, ?_⟩
  · intro spaces links m es h s
    obtain ⟨hm, hes⟩ := set_model_ok_elim h
    rw [hes]
    unfold ThresholdInv reset_state
    rfl
  · intro m es ev s h
    exact process_event_thresholdInv h
  · intro m ps sid b s h
    unfold set_space_inclusion
    split_ifs with h1
    · simpa using recalculate_totals_thresholdInv h
    · simpa using h

/-- Witness for `C4_threshold_invariant` at a concrete model and event. -/
theorem C4_threshold_invariant_witness :
    ThresholdInv demoME.2.state "living" ∧
    ThresholdInv (process_event demoME.1 DEFAULT_DECAY_THRESHOLD demoME.2
      { entity_id := "m_living", new_state := .s "on", timestamp := 0 }).1.state "living" := by
  have h1 : set_model [demoLiving, demoKitchen] [demoLink] =
      Except.ok (demoME.1, demoME.2) := rfl
  have h2 := C4_threshold_invariant.1 _ _ _ _ h1 "living"
  exact ⟨h2, C4_threshold_invariant.2.1 _ _ _ _ h2⟩

/-! ## Totals are preserved before recalculation (for claim C3) -/

theorem decayOne_total (θ now : ℚ) (ps : PresenceState) (p : String × Space) :
    (decayOne θ now ps p).total_estimated = ps.total_estimated := by
  simp only [decayOne]
  split_ifs <;> rfl

theorem apply_decay_total (m : Model) (θ : ℚ) (ps : PresenceState) (now : ℚ) :
    (apply_decay m θ ps now).total_estimated = ps.total_estimated := by
  unfold apply_decay
  induction m.spaces generalizing ps with
  | nil => rfl
  | cons p l ih => simp only [List.foldl_cons]; rw [ih, decayOne_total]

theorem activate_space_total (m : Model) (ps : PresenceState) (sid : String) (ts : ℚ) :
    (activate_space m ps sid ts).1.total_estimated = ps.total_estimated := by
  simp only [activate_space]
  split_ifs <;> rfl

theorem compute_boost_total (m : Model) (θ : ℚ) (ps : PresenceState) (sid : String)
    (ts : ℚ) : (compute_boost m θ ps sid ts).1.total_estimated = ps.total_estimated := by
  simp only [compute_boost]
  split_ifs <;> rfl

theorem boost_step_total (m : Model) (θ ts lat : ℚ) (acc : PresenceState × List String)
    (c : String × String) :
    (boost_step m θ ts lat acc c).1.total_estimated = acc.1.total_estimated := by
  unfold boost_step
  cases hle : acc.1.last_event_ts c.1 with
  | none => rfl
  | some t =>
    dsimp only
    split_ifs <;> simp [compute_boost_total]

theorem foldl_boost_total (m : Model) (θ ts lat : ℚ) :
    ∀ (cands : List (String × String)) (acc : PresenceState × List String),
      ((cands.foldl (boost_step m θ ts lat) acc).1).total_estimated =
        acc.1.total_estimated := by
  intro cands
  induction cands with
  | nil => intro acc; rfl
  | cons c cs ih =>
    intro acc
    simp only [List.foldl_cons]
    rw [ih, boost_step_total]

theorem handle_link_activity_total (m : Model) (θ : ℚ) (es : EngineState)
    (lid : String) (ts : ℚ) :
    (handle_link_activity m θ es lid ts).1.state.total_estimated =
      es.state.total_estimated := by
  unfold handle_link_activity
  cases hl : lookupLink m lid with
  | none => rfl
  | some link =>
    dsimp only
    split_ifs
    · rfl
    · rfl
    · exact foldl_boost_total m θ ts _ _ _

theorem dispatch_event_total (m : Model) (θ : ℚ) (es1 : EngineState)
    (ev : GraphEvent) (k : EntityKind) (t : String) (ts : ℚ) :
    (dispatch_event m θ es1 ev k t ts).1.state.total_estimated =
      es1.state.total_estimated := by
  cases k with
  | space =>
    simp only [dispatch_event]
    split_ifs
    · exact activate_space_total m es1.state t ts
    · rfl
  | link_lock => simp [dispatch_event, handle_link_lock_state]
  | link_motion => exact handle_link_activity_total m θ es1 t ts
  | link_contact => exact handle_link_activity_total m θ es1 t ts

theorem recalculate_totals_bounds (m : Model) (ps : PresenceState)
    (h : 0 ≤ ps.total_estimated) :
    0 ≤ (recalculate_totals m ps).total_estimated ∧
    (recalculate_totals m ps).total_estimated ≤ ps.total_estimated + 1 := by
  simp only [recalculate_totals]
  split_ifs with h1 h2 h3
  · dsimp only; exact ⟨le_refl 0, by linarith⟩
  · dsimp only; exact ⟨le_refl 0, by linarith⟩
  · dsimp only; exact ⟨by linarith, le_refl _⟩
  · dsimp only
    have hge : (1 : ℤ) ≤ recalcCandidate m ps := le_max_right _ 1
    have hle := not_lt.mp h3
    exact ⟨by linarith, by linarith⟩

/-! ## Claim C3: per-call bounds on total_estimated -/

/-- C3: in every `process_event` or `force_space_state` call, starting from a
nonnegative total, the resulting `total_estimated` stays `≥ 0` and exceeds
the pre-call value by at most 1; and it may drop to 0 from an arbitrary
pre-call value in a single call. -/
theorem C3_total_bounds :
    (∀ m θ es ev, 0 ≤ es.state.total_estimated →
      0 ≤ (process_event m θ es ev).1.state.total_estimated ∧
      (process_event m θ es ev).1.state.total_estimated ≤
        es.state.total_estimated + 1) ∧
    (∀ m θ es sid occ sc now r, 0 ≤ es.state.total_estimated →
      0 ≤ (force_space_state m θ es sid occ sc now r).1.state.total_estimated ∧
      (force_space_state m θ es sid occ sc now r).1.state.total_estimated ≤
        es.state.total_estimated + 1) ∧
    (∀ k : ℤ, ∃ es, es.state.total_estimated = k ∧
      (force_space_state demoME.1 DEFAULT_DECAY_THRESHOLD es "living" false none 0
        ATTR_REASON_FORCED).1.state.total_estimated = 0) := by
  refine ⟨?_, ?_, ?_⟩
  · intro m θ es ev h
    rcases process_event_state_shape m θ es ev with hs | ⟨k, t, _, hs⟩
    · rw [hs, apply_decay_total]
      exact ⟨h, by linarith⟩
    · rw [hs]
      have hpre : (dispatch_event m θ
          { es with state := apply_decay m θ es.state ev.timestamp }
          ev k t ev.timestamp).1.state.total_estimated = es.state.total_estimated := by
        rw [dispatch_event_total]
        exact apply_decay_total m θ es.state ev.timestamp
      have := recalculate_totals_bounds m _ (by rw [hpre]; exact h)
      rw [hpre] at this
      exact this
  · intro m θ es sid occ sc now r h
    have key : ∀ ps2 : PresenceState,
        ps2.total_estimated = es.state.total_estimated →
        0 ≤ (recalculate_totals m ps2).total_estimated ∧
        (recalculate_totals m ps2).total_estimated ≤ es.state.total_estimated + 1 := by
      intro ps2 h2
      have hb := recalculate_totals_bounds m ps2 (by rw [h2]; exact h)
      rw [h2] at hb
      exact hb
    unfold force_space_state
    split_ifs with h1 h2
    · exact ⟨h, by linarith⟩
    · exact key _ rfl
    · exact key _ rfl
  · intro k
    exact ⟨totalState k, rfl, rfl⟩

/-- Witness for `C3_total_bounds` at a concrete engine and event. -/
theorem C3_total_bounds_witness :
    0 ≤ demoME.2.state.total_estimated ∧
    (0 ≤ (process_event demoME.1 DEFAULT_DECAY_THRESHOLD demoME.2
        { entity_id := "m_living", new_state := .s "on", timestamp := 0 }).1.state.total_estimated ∧
      (process_event demoME.1 DEFAULT_DECAY_THRESHOLD demoME.2
        { entity_id := "m_living", new_state := .s "on", timestamp := 0 }).1.state.total_estimated ≤
        demoME.2.state.total_estimated + 1) :=
  ⟨by decide, C3_total_bounds.1 demoME.1 DEFAULT_DECAY_THRESHOLD demoME.2 _ (by decide)⟩

/-! ## Pointwise description of the decay pass (for claim C6) -/

theorem decayOne_last_event_ts (θ now : ℚ) (ps : PresenceState) (p : String × Space) :
    (decayOne θ now ps p).last_event_ts = ps.last_event_ts := by
  simp only [decayOne]
  split_ifs <;> rfl

theorem decayOne_scores_other {θ now : ℚ} {ps : PresenceState} {p : String × Space}
    {s : String} (h : p.1 ≠ s) :
    (decayOne θ now ps p).scores s = ps.scores s := by
  simp only [decayOne]
  split_ifs <;> first
    | rfl
    | (dsimp only; exact fupd_ne _ _ _ (Ne.symm h))

theorem decayOne_scores_self (θ now : ℚ) (ps : PresenceState) (p : String × Space) :
    (decayOne θ now ps p).scores p.1 =
      if decayTarget p.2 (ps.last_event_ts p.1) now < ps.scores p.1
      then decayTarget p.2 (ps.last_event_ts p.1) now else ps.scores p.1 := by
  simp only [decayOne]
  split_ifs <;> first
    | rfl
    | (dsimp only; exact fupd_same _ _ _)

theorem foldl_decay_last_event_ts (θ now : ℚ) :
    ∀ (l : List (String × Space)) (ps : PresenceState),
      (l.foldl (decayOne θ now) ps).last_event_ts = ps.last_event_ts := by
  intro l
  induction l with
  | nil => intro ps; rfl
  | cons p rest ih =>
    intro ps
    simp only [List.foldl_cons]
    rw [ih, decayOne_last_event_ts]

theorem foldl_decay_scores_not_mem {θ now : ℚ} {s : String} :
    ∀ (l : List (String × Space)) (ps : PresenceState), s ∉ l.map (·.1) →
      (l.foldl (decayOne θ now) ps).scores s = ps.scores s := by
  intro l
  induction l with
  | nil => intro ps _; rfl
  | cons p rest ih =>
    intro ps h
    simp only [List.map_cons, List.mem_cons] at h
    push_neg at h
    simp only [List.foldl_cons]
    rw [ih _ h.2, decayOne_scores_other (fun he => h.1 he.symm)]

theorem foldl_decay_scores_lookup {θ now : ℚ} {s : String} :
    ∀ (l : List (String × Space)) (ps : PresenceState) (sp : Space),
      (l.map (·.1)).Nodup → lookupDict l s = some sp →
      (l.foldl (decayOne θ now) ps).scores s =
        if decayTarget sp (ps.last_event_ts s) now < ps.scores s
        then decayTarget sp (ps.last_event_ts s) now else ps.scores s := by
  intro l
  induction l with
  | nil => intro ps sp _ hl; simp [lookupDict] at hl
  | cons p rest ih =>
    intro ps sp hnd hl
    obtain ⟨k, v⟩ := p
    simp only [List.map_cons] at hnd
    by_cases hk : k = s
    · have hsp : v = sp := by
        simpa [lookupDict, List.find?, hk] using hl
      have hnot : s ∉ rest.map (·.1) := by
        have h1 := (List.nodup_cons.mp hnd).1
        rw [hk] at h1
        exact h1
      simp only [List.foldl_cons]
      rw [foldl_decay_scores_not_mem rest _ hnot]
      rw [show ((k, v) : String × Space) = (s, sp) by rw [hk, hsp]]
      exact decayOne_scores_self θ now ps (s, sp)
    · have hl' : lookupDict rest s = some sp := by
        simpa [lookupDict, List.find?, hk] using hl
      have hnd' : (rest.map (·.1)).Nodup := (List.nodup_cons.mp hnd).2
      simp only [List.foldl_cons]
      rw [ih _ sp hnd' hl', decayOne_last_event_ts, decayOne_scores_other hk]

theorem apply_decay_scores_lookup {m : Model} {θ : ℚ} {ps : PresenceState}
    {now : ℚ} {s : String} {sp : Space} (hnd : (spaceIds m).Nodup)
    (hl : lookupSpace m s = some sp) :
    (apply_decay m θ ps now).scores s =
      if decayTarget sp (ps.last_event_ts s) now < ps.scores s
      then decayTarget sp (ps.last_event_ts s) now else ps.scores s :=
  foldl_decay_scores_lookup m.spaces ps sp hnd hl

theorem decayOne_scores_le (θ now : ℚ) (ps : PresenceState) (p : String × Space)
    (s : String) : (decayOne θ now ps p).scores s ≤ ps.scores s := by
  by_cases hk : p.1 = s
  · subst hk
    rw [decayOne_scores_self]
    split_ifs with hlt
    · exact le_of_lt hlt
    · exact le_refl _
  · rw [decayOne_scores_other hk]

theorem apply_decay_scores_le (m : Model) (θ : ℚ) (ps : PresenceState) (now : ℚ)
    (s : String) : (apply_decay m θ ps now).scores s ≤ ps.scores s := by
  unfold apply_decay
  induction m.spaces generalizing ps with
  | nil => exact le_refl _
  | cons p rest ih =>
    simp only [List.foldl_cons]
    exact le_trans (ih (decayOne θ now ps p)) (decayOne_scores_le θ now ps p s)

theorem decayTarget_antitone {sp : Space} {last : Option ℚ} {n1 n2 : ℚ}
    (h : n1 ≤ n2) : decayTarget sp last n2 ≤ decayTarget sp last n1 := by
  cases last with
  | none => exact le_refl _
  | some t =>
    unfold decayTarget
    dsimp only
    have he : max 0 (n1 - t) ≤ max 0 (n2 - t) :=
      max_le_max (le_refl 0) (by linarith)
    by_cases h2 : effTimeout sp ≤ max 0 (n2 - t)
    · rw [if_pos h2]
      by_cases h1 : effTimeout sp ≤ max 0 (n1 - t)
      · rw [if_pos h1]
      · rw [if_neg h1]
        exact le_max_left _ _
    · rw [if_neg h2]
      have h1 : ¬ effTimeout sp ≤ max 0 (n1 - t) := fun hc => h2 (le_trans hc he)
      rw [if_neg h1]
      have hT : 0 < effTimeout sp := lt_of_le_of_lt (le_max_left 0 (n1 - t)) (not_le.mp h1)
      have hdiv : max 0 (n1 - t) / effTimeout sp ≤ max 0 (n2 - t) / effTimeout sp :=
        (div_le_div_iff_of_pos_right hT).mpr he
      exact max_le_max (le_refl 0) (by linarith)

theorem decayTarget_eq_max {sp : Space} {t now : ℚ} (hT : 0 < effTimeout sp) :
    decayTarget sp (some t) now = max 0 (1 - max 0 (now - t) / effTimeout sp) := by
  unfold decayTarget
  dsimp only
  split_ifs with h1
  · have h2 : 1 ≤ max 0 (now - t) / effTimeout sp := (one_le_div hT).mpr h1
    exact (max_eq_left (by linarith)).symm
  · rfl

/-! ## Claim C6: decay never raises a score -/

/-- C6: (i) for a fixed pre-decay state the score of any space after a decay
pass at `now2` is at most its value after a pass at `now1 ≤ now2`; (ii) a
decay pass never raises any score; (iii) a space's score is overwritten only
when the decay target is strictly below the current score; (iv) for a
positive timeout that target is exactly `max 0 (1 - elapsed/timeout)`. -/
theorem C6_decay_monotone :
    (∀ m θ ps now1 now2 s sp, (spaceIds m).Nodup → lookupSpace m s = some sp →
      now1 ≤ now2 →
      (apply_decay m θ ps now2).scores s ≤ (apply_decay m θ ps now1).scores s) ∧
    (∀ m θ ps now s, (apply_decay m θ ps now).scores s ≤ ps.scores s) ∧
    (∀ m θ ps now s sp, (spaceIds m).Nodup → lookupSpace m s = some sp →
      (apply_decay m θ ps now).scores s ≠ ps.scores s →
      decayTarget sp (ps.last_event_ts s) now < ps.scores s) ∧
    (∀ sp t now, 0 < effTimeout sp →
      decayTarget sp (some t) now = max 0 (1 - max 0 (now - t) / effTimeout sp)) := by
  refine ⟨?_, ?_, ?_, ?_⟩
  · intro m θ ps now1 now2 s sp hnd hl h12
    rw [apply_decay_scores_lookup hnd hl, apply_decay_scores_lookup hnd hl]
    have ht := @decayTarget_antitone sp (ps.last_event_ts s) _ _ h12
    split_ifs <;> linarith
  · intro m θ ps now s
    exact apply_decay_scores_le m θ ps now s
  · intro m θ ps now s sp hnd hl hne
    rw [apply_decay_scores_lookup hnd hl] at hne
    by_contra hcon
    rw [if_neg hcon] at hne
    exact hne rfl
  · intro sp t now hT
    exact decayTarget_eq_max hT

/-- Witness for `C6_decay_monotone` at the demo model. -/
theorem C6_decay_monotone_witness :
    ((spaceIds demoME.1).Nodup ∧ lookupSpace demoME.1 "living" = some demoLiving ∧
      (0:ℚ) ≤ 1 ∧ (0:ℚ) < effTimeout demoLiving) ∧
    (apply_decay demoME.1 DEFAULT_DECAY_THRESHOLD livingActive.state 1).scores "living" ≤
      (apply_decay demoME.1 DEFAULT_DECAY_THRESHOLD livingActive.state 0).scores "living" ∧
    decayTarget demoLiving (some 0) 1 = max 0 (1 - max 0 ((1:ℚ) - 0) / effTimeout demoLiving) := by
  refine ⟨⟨by decide, by decide, by norm_num, by decide⟩, ?_, ?_⟩
  · exact C6_decay_monotone.1 demoME.1 DEFAULT_DECAY_THRESHOLD livingActive.state 0 1
      "living" demoLiving (by decide) (by decide) (by norm_num)
  · exact C6_decay_monotone.2.2.2 demoLiving 0 1 (by decide)

/-! ## Claim C5 (corrected): gate order in link traversal handling -/

/-- C5 counterexample: with the link locked, a link-motion event at t=5
produces no propagation AND does not record the event time — the lock gate
runs before the debounce gate, so the debounce timestamp is NOT updated,
contradicting the claimed order (debounce recorded first, lock second). -/
theorem C5_counterexample :
    lockedES.locked_links = ["lk"] ∧
    (process_event demoME.1 DEFAULT_DECAY_THRESHOLD lockedES
      { entity_id := "m_link", new_state := .s "on", timestamp := 5 }).2.changed = [] ∧
    lockedAfterMotion.last_link_event "lk" = none ∧
    lockedAfterMotion.last_link_event "lk" ≠ some 5 :=
  ⟨by decide, by decide, by decide, by decide⟩

/-- C5 (amended): `_handle_link_activity` evaluates the lock gate before the
debounce gate: on a locked link nothing happens at all (no propagation and
no debounce-timestamp update); on an unlocked link a non-debounced event
records its timestamp as the link's last-event time, and a debounced event
is ignored. -/
theorem C5_lock_gate_first :
    (∀ m θ es lid ts, (lookupLink m lid).isSome → lid ∈ es.locked_links →
      handle_link_activity m θ es lid ts = (es, [])) ∧
    (∀ m θ es lid ts link, lookupLink m lid = some link → lid ∉ es.locked_links →
      (∀ last, es.last_link_event lid = some last → ¬ ts - last < LINK_EVENT_DEBOUNCE) →
      (handle_link_activity m θ es lid ts).1.last_link_event lid = some ts) ∧
    (∀ m θ es lid ts link last, lookupLink m lid = some link → lid ∉ es.locked_links →
      es.last_link_event lid = some last → ts - last < LINK_EVENT_DEBOUNCE →
      handle_link_activity m θ es lid ts = (es, [])) := by
  refine ⟨?_, ?_, ?_⟩
  · intro m θ es lid ts hsome hlock
    unfold handle_link_activity
    cases hl : lookupLink m lid with
    | none => rfl
    | some link =>
      dsimp only
      rw [if_pos hlock]
  · intro m θ es lid ts link hl hlock hnd
    unfold handle_link_activity
    rw [hl]
    dsimp only
    rw [if_neg hlock]
    have hdb : (match es.last_link_event lid with
        | some last => decide (ts - last < LINK_EVENT_DEBOUNCE)
        | none => false) = false := by
      cases hle : es.last_link_event lid with
      | none => rfl
      | some last => simpa using hnd last hle
    simp only [hdb, Bool.false_eq_true, if_false]
    simp [fupd]
  · intro m θ es lid ts link last hl hlock hle hdb
    unfold handle_link_activity
    rw [hl]
    dsimp only
    rw [if_neg hlock]
    have hdb' : (match es.last_link_event lid with
        | some last => decide (ts - last < LINK_EVENT_DEBOUNCE)
        | none => false) = true := by
      rw [hle]
      simpa using hdb
    simp only [hdb', if_true]

/-- Witness for `C5_lock_gate_first` at concrete engines: a locked link, a
never-debounced link, and a freshly debounced link. -/
theorem C5_lock_gate_first_witness :
    ((lookupLink demoME.1 "lk").isSome = true ∧ "lk" ∈ lockedES.locked_links ∧
      handle_link_activity demoME.1 DEFAULT_DECAY_THRESHOLD lockedES "lk" 5 =
        (lockedES, [])) ∧
    ((handle_link_activity demoME.1 DEFAULT_DECAY_THRESHOLD demoME.2 "lk" 5).1.last_link_event "lk" =
      some 5) ∧
    (propagatedES.last_link_event "lk" = some 1 ∧ (2:ℚ) - 1 < LINK_EVENT_DEBOUNCE ∧
      handle_link_activity demoME.1 DEFAULT_DECAY_THRESHOLD propagatedES "lk" 2 =
        (propagatedES, [])) := by
  refine ⟨⟨by decide, by decide, ?_⟩, ?_, ⟨by decide, by norm_num [LINK_EVENT_DEBOUNCE], ?_⟩⟩
  · exact C5_lock_gate_first.1 demoME.1 DEFAULT_DECAY_THRESHOLD lockedES "lk" 5
      (by decide) (by decide)
  · exact C5_lock_gate_first.2.1 demoME.1 DEFAULT_DECAY_THRESHOLD demoME.2 "lk" 5 demoLink
      (by decide) (by decide) (fun last h => Option.noConfusion h)
  · exact C5_lock_gate_first.2.2 demoME.1 DEFAULT_DECAY_THRESHOLD propagatedES "lk" 2 demoLink 1
      (by decide) (by decide) (by decide) (by norm_num [LINK_EVENT_DEBOUNCE])

/-! ## Claim C7 (corrected): the boost epsilon band -/

/-- C7 counterexample: kitchen sits at score `0.6 - 1/2000000`.  A link
propagation attempt computes the new score `max(current, 0.6) = 0.6`,
which is strictly greater than the previous score, yet the boost is NOT
applied and nothing is reported changed — the code requires
`new > prev + 1e-6`, not `new > prev`. -/
theorem C7_counterexample :
    epsilonBandES.state.scores "kitchen" = 1199999/2000000 ∧
    epsilonBandES.state.scores "kitchen" <
      max (epsilonBandES.state.scores "kitchen") (3/5) ∧
    epsilonBandAfter.2.changed = [] ∧
    epsilonBandAfter.1.state.scores "kitchen" = 1199999/2000000 :=
  ⟨by decide, by decide, by decide, by decide⟩

/-- C7 (amended): a propagation attempt on a known target with score ≤ 1
computes `new = max(current, 0.6)` and applies the boost (score, timestamp,
occupied, count updated; reported changed) exactly when
`new > current + 1e-6`; in particular any target strictly below
`0.6 - 1e-6` is boosted, and a non-applied attempt leaves the state
untouched. -/
theorem C7_boost_epsilon :
    ∀ m θ ps sid ts sp, lookupSpace m sid = some sp → ps.scores sid ≤ 1 →
      (((compute_boost m θ ps sid ts).2 = true) ↔
        ps.scores sid + 1/1000000 < max (ps.scores sid) (3/5)) ∧
      (ps.scores sid < 3/5 - 1/1000000 → (compute_boost m θ ps sid ts).2 = true) ∧
      ((compute_boost m θ ps sid ts).2 = true →
        (compute_boost m θ ps sid ts).1.scores sid = max (ps.scores sid) (3/5) ∧
        (compute_boost m θ ps sid ts).1.last_event_ts sid = some ts ∧
        (compute_boost m θ ps sid ts).1.occupied sid =
          decide (θ < max (ps.scores sid) (3/5)) ∧
        (compute_boost m θ ps sid ts).1.space_counts sid =
          (if θ < max (ps.scores sid) (3/5) then 1 else ps.space_counts sid)) ∧
      ((compute_boost m θ ps sid ts).2 = false →
        (compute_boost m θ ps sid ts).1 = ps) := by
  intro m θ ps sid ts sp hl hle
  have hsome : ¬ (lookupSpace m sid).isNone = true := by simp [hl]
  have hmin : min 1 (max (ps.scores sid) (3/5)) = max (ps.scores sid) (3/5) := by
    have h35 : (3/5 : ℚ) ≤ 1 := by norm_num
    exact min_eq_right (max_le hle h35)
  unfold compute_boost
  rw [if_neg hsome]
  by_cases h2 : max (ps.scores sid) (3/5) ≤ ps.scores sid + 1/1000000
  · rw [if_pos h2]
    refine ⟨?_, ?_, ?_, ?_⟩
    · simp only [Bool.false_eq_true, false_iff, not_lt]
      exact h2
    · intro hlt
      exact absurd h2 (by
        have : (3/5 : ℚ) ≤ max (ps.scores sid) (3/5) := le_max_right _ _
        push_neg
        linarith)
    · intro hc; exact absurd hc (by simp)
    · intro _; rfl
  · rw [if_neg h2]
    refine ⟨?_, ?_, ?_, ?_⟩
    · simp only [true_iff]
      linarith [not_le.mp h2]
    · intro _; rfl
    · intro _
      dsimp only
      rw [hmin]
      refine ⟨fupd_same _ _ _, fupd_same _ _ _, fupd_same _ _ _, ?_⟩
      by_cases hθ : θ < max (ps.scores sid) (3/5)
      · rw [decide_eq_true hθ]; simp [fupd, hθ]
      · rw [decide_eq_false hθ]; simp [fupd, hθ]
    · intro hc; exact absurd hc (by simp)

/-- Witness for `C7_boost_epsilon` at the demo model with kitchen at 0. -/
theorem C7_boost_epsilon_witness :
    lookupSpace demoME.1 "kitchen" = some demoKitchen ∧
    demoME.2.state.scores "kitchen" ≤ 1 ∧
    (demoME.2.state.scores "kitchen" < 3/5 - 1/1000000 →
      (compute_boost demoME.1 DEFAULT_DECAY_THRESHOLD demoME.2.state "kitchen" 7).2 = true) :=
  ⟨by decide, by decide,
    (C7_boost_epsilon demoME.1 DEFAULT_DECAY_THRESHOLD demoME.2.state "kitchen" 7 demoKitchen
      (by decide) (by decide)).2.1⟩

/-! ## Claim C8 (corrected): lock events and the sticky reason -/

/-- C8 counterexample: a lock event on a fresh engine updates the locked
set and reports no changed spaces, but the returned reason is the sticky
last reason ("decay" here), not "link_event" as the claim states — lock
events never report changed spaces, so the sticky-reason override always
replaces the dispatch reason. -/
theorem C8_counterexample :
    lockUpdate.1.locked_links = ["lk"] ∧
    lockUpdate.2.changed = [] ∧
    lockUpdate.2.reason = ATTR_REASON_DECAY ∧
    lockUpdate.2.reason ≠ ATTR_REASON_LINK :=
  ⟨by decide, by decide, by decide, by decide⟩

/-- C8 (amended): for a `process_event` call on a lock-indexed entity that
passes the duration gate, the link's locked flag is updated per the locked
predicate (add to `locked_links` when locked-like, else remove), the
changed list is always empty, and — because nothing changed — the returned
reason is the remembered last reason (the dispatch-internal reason
`link_event` is computed but never returned). -/
theorem C8_lock_events :
    ∀ m θ es ev lid, m.entity_index ev.entity_id = some (.link_lock, lid) →
      DurationOK ev →
      (process_event m θ es ev).2.changed = [] ∧
      (process_event m θ es ev).2.reason = es.last_reason ∧
      (process_event m θ es ev).1.last_reason = es.last_reason ∧
      (process_event m θ es ev).1.locked_links =
        (if state_is_locked ev.new_state then es.locked_links.insert lid
         else es.locked_links.erase lid) := by
  intro m θ es ev lid hidx hdur
  have hsp : (match ev.duration with
      | some d => decide (d < MIN_EVENT_DURATION)
      | none => false) = false := by
    unfold DurationOK at hdur
    cases hd : ev.duration with
    | none => rfl
    | some d => rw [hd] at hdur; simpa using hdur
  unfold process_event
  rw [hidx]
  dsimp only
  simp only [hsp, Bool.false_eq_true, if_false]
  by_cases hlk : state_is_locked ev.new_state = true
  · simp [dispatch_event, handle_link_lock, hlk]
  · simp [dispatch_event, handle_link_lock, hlk]

/-- Witness for `C8_lock_events` at the fresh demo engine. -/
theorem C8_lock_events_witness :
    (process_event demoME.1 DEFAULT_DECAY_THRESHOLD demoME.2
      { entity_id := "lock_link", new_state := .s "locked", timestamp := 0 }).2.changed = [] ∧
    (process_event demoME.1 DEFAULT_DECAY_THRESHOLD demoME.2
      { entity_id := "lock_link", new_state := .s "locked", timestamp := 0 }).2.reason =
      demoME.2.last_reason := by
  have h := C8_lock_events demoME.1 DEFAULT_DECAY_THRESHOLD demoME.2
    { entity_id := "lock_link", new_state := .s "locked", timestamp := 0 } "lk"
    (by decide) trivial
  exact ⟨h.1, h.2.1⟩

/-! ## Claim C9: force_space_state -/

/-- C9: a `force_space_state(space_id, occupied, score?)` call (with the
default forced-override reason) on a known space applies the score clamped
to [0,1] (defaulting to 1.0/0.0 from `occupied`), trusts `occupied=true`
outright while re-deriving it from the threshold when false, stamps
`last_event_ts` only when occupied, recomputes totals and reports
reason = forced-override; an unknown space id is a no-op returning the
unchanged state with the requested reason. -/
theorem C9_force_space_state :
    (∀ m θ es sid occ sc now, lookupSpace m sid = none →
      force_space_state m θ es sid occ sc now ATTR_REASON_FORCED =
        (es, { state := es.state, changed := [], reason := ATTR_REASON_FORCED })) ∧
    (∀ m θ es sid occ sc now sp, lookupSpace m sid = some sp →
      (force_space_state m θ es sid occ sc now ATTR_REASON_FORCED).1.state.scores sid =
        max 0 (min 1 (sc.getD (if occ then 1 else 0))) ∧
      (force_space_state m θ es sid occ sc now ATTR_REASON_FORCED).1.state.occupied sid =
        (if occ then true
         else decide (θ < max 0 (min 1 (sc.getD (if occ then 1 else 0))))) ∧
      (force_space_state m θ es sid occ sc now ATTR_REASON_FORCED).1.state.last_event_ts sid =
        (if occ then some now else es.state.last_event_ts sid) ∧
      (force_space_state m θ es sid occ sc now ATTR_REASON_FORCED).2.reason =
        ATTR_REASON_FORCED ∧
      (force_space_state m θ es sid occ sc now ATTR_REASON_FORCED).2.changed = [sid] ∧
      (force_space_state m θ es sid occ sc now ATTR_REASON_FORCED).1.state =
        recalculate_totals m
          (let applied := max 0 (min 1 (sc.getD (if occ then 1 else 0)))
           let ps1 := { es.state with
             scores := fupd es.state.scores sid applied
             occupied := fupd es.state.occupied sid
               (if occ then true else decide (θ < applied)) }
           if occ then { ps1 with last_event_ts := fupd ps1.last_event_ts sid (some now) }
           else ps1)) := by
  constructor
  · intro m θ es sid occ sc now hl
    unfold force_space_state
    rw [if_pos (by simp [hl])]
  · intro m θ es sid occ sc now sp hl
    unfold force_space_state
    rw [if_neg (by simp [hl])]
    cases occ <;>
      refine ⟨?_, ?_, ?_, rfl, rfl, rfl⟩ <;>
        simp [recalculate_totals_scores, recalculate_totals_occupied,
          recalculate_totals_last_event_ts, fupd]

/-- Witness for `C9_force_space_state`: a known and an unknown space id. -/
theorem C9_force_space_state_witness :
    (lookupSpace demoME.1 "nope" = none ∧
      force_space_state demoME.1 DEFAULT_DECAY_THRESHOLD demoME.2 "nope" true none 3
        ATTR_REASON_FORCED =
        (demoME.2, { state := demoME.2.state, changed := [], reason := ATTR_REASON_FORCED })) ∧
    (lookupSpace demoME.1 "kitchen" = some demoKitchen ∧
      (force_space_state demoME.1 DEFAULT_DECAY_THRESHOLD demoME.2 "kitchen" true (some (9/10)) 3
        ATTR_REASON_FORCED).1.state.scores "kitchen" =
        max 0 (min 1 ((some (9/10) : Option ℚ).getD (if true then 1 else 0)))) := by
  refine ⟨⟨by decide, ?_⟩, ⟨by decide, ?_⟩⟩
  · exact C9_force_space_state.1 demoME.1 DEFAULT_DECAY_THRESHOLD demoME.2 "nope" true none 3
      (by decide)
  · exact (C9_force_space_state.2 demoME.1 DEFAULT_DECAY_THRESHOLD demoME.2 "kitchen" true
      (some (9/10)) 3 demoKitchen (by decide)).1

/-! ## Claim C10: entities of dropped links are not indexed at all -/

theorem sortedUniqueAux_mem {x : String} :
    ∀ (l acc : List String),
      x ∈ l.foldl (fun acc item => if item ∈ acc then acc else acc ++ [item]) acc ↔
        x ∈ acc ∨ x ∈ l := by
  intro l
  induction l with
  | nil => intro acc; simp
  | cons a rest ih =>
    intro acc
    simp only [List.foldl_cons]
    rw [ih]
    by_cases ha : a ∈ acc
    · rw [if_pos ha]
      constructor
      · rintro (h | h)
        · exact Or.inl h
        · exact Or.inr (List.mem_cons_of_mem _ h)
      · rintro (h | h)
        · exact Or.inl h
        · rcases List.mem_cons.mp h with rfl | h
          · exact Or.inl ha
          · exact Or.inr h
    · rw [if_neg ha]
      simp only [List.mem_append, List.mem_singleton, List.mem_cons]
      tauto

theorem mem_sorted_unique {x : String} {l : List String} :
    x ∈ sorted_unique l ↔ x ∈ l := by
  unfold sorted_unique
  rw [sortedUniqueAux_mem]
  simp

theorem registerList_not_mem {idx : String → Option (EntityKind × String)}
    {kind : EntityKind} {target e : String} :
    ∀ {entities : List String}, e ∉ entities →
      registerList idx entities kind target e = idx e := by
  unfold registerList
  suffices h : ∀ (entities : List String) (acc : String → Option (EntityKind × String)),
      e ∉ entities →
      (entities.foldl (fun acc e' => fupd acc e' (some (kind, target))) acc) e = acc e by
    intro entities he
    exact h entities idx he
  intro entities
  induction entities with
  | nil => intro acc _; rfl
  | cons a rest ih =>
    intro acc he
    simp only [List.mem_cons] at he
    push_neg at he
    simp only [List.foldl_cons]
    rw [ih _ he.2, fupd_ne _ _ _ he.1]

theorem buildSpaceIndex_not_mem {e : String} :
    ∀ (space_map : List (String × Space)),
      (∀ p ∈ space_map, e ∉ p.2.motion_entities ∧ e ∉ p.2.presence_entities) →
      buildSpaceIndex space_map e = none := by
  unfold buildSpaceIndex
  suffices h : ∀ (l : List (String × Space)) (acc : String → Option (EntityKind × String)),
      (∀ p ∈ l, e ∉ p.2.motion_entities ∧ e ∉ p.2.presence_entities) →
      acc e = none →
      (l.foldl (fun acc p =>
        registerList acc (sorted_unique (p.2.motion_entities ++ p.2.presence_entities))
          .space p.1) acc) e = none by
    intro space_map hsp
    exact h space_map _ hsp rfl
  intro l
  induction l with
  | nil => intro acc _ hn; exact hn
  | cons p rest ih =>
    intro acc hsp hn
    simp only [List.foldl_cons]
    refine ih _ (fun q hq => hsp q (List.mem_cons_of_mem _ hq)) ?_
    have hp := hsp p (List.mem_cons_self _ _)
    rw [registerList_not_mem (by
      rw [mem_sorted_unique]
      simp only [List.mem_append]
      push_neg
      exact hp)]
    exact hn

theorem foldl_linkStep_idx {sids : List String} {e : String} :
    ∀ (l : List (String × Link))
      (st : (String → List String) × (String → Option (EntityKind × String))),
      (∀ q ∈ l, (q.2.from_space ∈ sids ∧ q.2.to_space ∈ sids) →
        e ∉ q.2.motion_entities ∧ e ∉ q.2.contact_entities ∧ e ∉ q.2.lock_entities) →
      (l.foldl (linkStep sids) st).2 e = st.2 e := by
  intro l
  induction l with
  | nil => intro st _; rfl
  | cons p rest ih =>
    intro st hq
    simp only [List.foldl_cons]
    rw [ih _ (fun q hmem => hq q (List.mem_cons_of_mem _ hmem))]
    unfold linkStep
    split_ifs with hv
    · have hp := hq p (List.mem_cons_self _ _) hv
      dsimp only
      rw [registerList_not_mem (by rw [mem_sorted_unique]; exact hp.2.2),
        registerList_not_mem (by rw [mem_sorted_unique]; exact hp.2.1),
        registerList_not_mem (by rw [mem_sorted_unique]; exact hp.1)]
    · rfl

/-- C10: after `set_model`, an entity that appears only in the entity lists
of a link whose endpoints are not both existing space ids is not registered
in the entity index at all, and a `process_event` for it is handled as an
unknown entity: empty changed list, reason = decay, and no state change
beyond the decay pass. -/
theorem C10_dropped_link_entities :
    ∀ spaces links m es θ es' l e ev,
      set_model spaces links = Except.ok (m, es) →
      l ∈ links →
      ¬ (l.from_space ∈ spaceIds m ∧ l.to_space ∈ spaceIds m) →
      e ∈ l.motion_entities ++ l.contact_entities ++ l.lock_entities →
      (∀ p ∈ m.spaces, e ∉ p.2.motion_entities ∧ e ∉ p.2.presence_entities) →
      (∀ q ∈ m.links, (q.2.from_space ∈ spaceIds m ∧ q.2.to_space ∈ spaceIds m) →
        e ∉ q.2.motion_entities ∧ e ∉ q.2.contact_entities ∧ e ∉ q.2.lock_entities) →
      ev.entity_id = e →
      m.entity_index e = none ∧
      process_event m θ es' ev =
        ({ es' with state := apply_decay m θ es'.state ev.timestamp },
         { state := apply_decay m θ es'.state ev.timestamp, changed := [],
           reason := ATTR_REASON_DECAY }) := by
  intro spaces links m es θ es' l e ev hok hmem hinvalid hentity hsp hq hev
  obtain ⟨hm, _⟩ := set_model_ok_elim hok
  subst hm
  have hq' : ∀ q ∈ buildDict Link.id links,
      (q.2.from_space ∈ (buildDict Space.id spaces).map (·.1) ∧
       q.2.to_space ∈ (buildDict Space.id spaces).map (·.1)) →
      e ∉ q.2.motion_entities ∧ e ∉ q.2.contact_entities ∧ e ∉ q.2.lock_entities := hq
  have hsp' : ∀ p ∈ buildDict Space.id spaces,
      e ∉ p.2.motion_entities ∧ e ∉ p.2.presence_entities := hsp
  have hidx : (mkModel spaces links).entity_index e = none := by
    show ((buildDict Link.id links).foldl
      (linkStep ((buildDict Space.id spaces).map (·.1)))
      ((fun _ => []), buildSpaceIndex (buildDict Space.id spaces))).2 e = none
    rw [foldl_linkStep_idx _ _ hq']
    exact buildSpaceIndex_not_mem _ hsp'
  refine ⟨hidx, ?_⟩
  have hidx' : (mkModel spaces links).entity_index ev.entity_id = none := by
    rw [hev]; exact hidx
  unfold process_event
  rw [hidx']

/-- Witness for `C10_dropped_link_entities`: the ghost link's motion entity
in the demo model with an unknown endpoint. -/
theorem C10_dropped_link_entities_witness :
    demoGhostME.1.entity_index "m_ghost" = none ∧
    process_event demoGhostME.1 DEFAULT_DECAY_THRESHOLD demoGhostME.2
      { entity_id := "m_ghost", new_state := .s "on", timestamp := 4 } =
      ({ demoGhostME.2 with
          state := apply_decay demoGhostME.1 DEFAULT_DECAY_THRESHOLD demoGhostME.2.state 4 },
       { state := apply_decay demoGhostME.1 DEFAULT_DECAY_THRESHOLD demoGhostME.2.state 4,
         changed := [], reason := ATTR_REASON_DECAY }) := by
  have h := C10_dropped_link_entities [demoLiving, demoKitchen] [demoLink, demoGhostLink]
    demoGhostME.1 demoGhostME.2 DEFAULT_DECAY_THRESHOLD demoGhostME.2 demoGhostLink "m_ghost"
    { entity_id := "m_ghost", new_state := .s "on", timestamp := 4 }
    rfl (by decide) (by decide) (by decide) (by decide) (by decide) rfl
  exact h

/-! ## Claim C2, layer 1: the neighbour scan -/

theorem scanNeighbors_conserve :
    ∀ (ns v r a : List String),
      ((scanNeighbors ns v r a).2.1).length + ((scanNeighbors ns v r a).2.2).length =
        r.length + a.length := by
  intro ns
  induction ns with
  | nil => intro v r a; rfl
  | cons n rest ih =>
    intro v r a
    simp only [scanNeighbors]
    by_cases h : n ∈ v ∨ n ∉ r
    · rw [if_pos h]; exact ih v r a
    · push_neg at h
      rw [if_neg (by push_neg; exact h)]
      rw [ih]
      rw [List.length_erase_of_mem h.2, List.length_append]
      have hpos : 0 < r.length := List.length_pos_of_mem h.2
      simp only [List.length_cons, List.length_nil]
      omega

theorem scanNeighbors_remaining_sublist :
    ∀ (ns v r a : List String), List.Sublist (scanNeighbors ns v r a).2.1 r := by
  intro ns
  induction ns with
  | nil => intro v r a; exact List.Sublist.refl r
  | cons n rest ih =>
    intro v r a
    simp only [scanNeighbors]
    by_cases h : n ∈ v ∨ n ∉ r
    · rw [if_pos h]; exact ih v r a
    · rw [if_neg h]
      exact (ih _ _ _).trans (List.erase_sublist n r)

theorem scanNeighbors_remaining_mem {x : String} :
    ∀ (ns v r a : List String), r.Nodup →
      (x ∈ (scanNeighbors ns v r a).2.1 ↔ x ∈ r ∧ (x ∉ ns ∨ x ∈ v)) := by
  intro ns
  induction ns with
  | nil => intro v r a _; simp [scanNeighbors]
  | cons n rest ih =>
    intro v r a hnd
    simp only [scanNeighbors]
    by_cases h : n ∈ v ∨ n ∉ r
    · rw [if_pos h, ih v r a hnd]
      by_cases hxn : x = n
      · subst hxn; simp only [List.mem_cons, not_or]; tauto
      · simp only [List.mem_cons, not_or]; tauto
    · push_neg at h
      rw [if_neg (by push_neg; exact h), ih _ _ _ (hnd.erase n)]
      have hne : n ∉ r.erase n := List.Nodup.not_mem_erase hnd
      by_cases hxn : x = n
      · subst hxn; simp only [List.mem_cons, not_or]; tauto
      · rw [List.mem_erase_of_ne hxn]; simp only [List.mem_cons, not_or]; tauto

theorem scanNeighbors_visited_mem {x : String} :
    ∀ (ns v r a : List String), r.Nodup →
      (x ∈ (scanNeighbors ns v r a).1 ↔ x ∈ v ∨ (x ∈ ns ∧ x ∈ r)) := by
  intro ns
  induction ns with
  | nil => intro v r a _; simp [scanNeighbors]
  | cons n rest ih =>
    intro v r a hnd
    simp only [scanNeighbors]
    by_cases h : n ∈ v ∨ n ∉ r
    · rw [if_pos h, ih v r a hnd]
      by_cases hxn : x = n
      · subst hxn; simp only [List.mem_cons]; tauto
      · simp only [List.mem_cons]; tauto
    · push_neg at h
      rw [if_neg (by push_neg; exact h), ih _ _ _ (hnd.erase n)]
      have hne : n ∉ r.erase n := List.Nodup.not_mem_erase hnd
      by_cases hxn : x = n
      · subst hxn; simp only [List.mem_cons]; tauto
      · rw [List.mem_erase_of_ne hxn]; simp only [List.mem_cons]; tauto

theorem scanNeighbors_adds_mem {x : String} :
    ∀ (ns v r a : List String), r.Nodup →
      (x ∈ (scanNeighbors ns v r a).2.2 ↔ x ∈ a ∨ (x ∈ ns ∧ x ∈ r ∧ x ∉ v)) := by
  intro ns
  induction ns with
  | nil => intro v r a _; simp [scanNeighbors]
  | cons n rest ih =>
    intro v r a hnd
    simp only [scanNeighbors]
    by_cases h : n ∈ v ∨ n ∉ r
    · rw [if_pos h, ih v r a hnd]
      by_cases hxn : x = n
      · subst hxn; simp only [List.mem_cons]; tauto
      · simp only [List.mem_cons]; tauto
    · push_neg at h
      rw [if_neg (by push_neg; exact h), ih _ _ _ (hnd.erase n)]
      have hne : n ∉ r.erase n := List.Nodup.not_mem_erase hnd
      by_cases hxn : x = n
      · subst hxn
        simp only [List.mem_cons, List.mem_append, List.mem_singleton]
        tauto
      · rw [List.mem_erase_of_ne hxn]
        simp only [List.mem_cons, List.mem_append, List.mem_singleton]
        tauto

/-! ## Claim C2, layer 2: the BFS loop removes exactly one component -/

/-- Invariant of the inner `while queue` loop of `_count_clusters`, relative
to the cluster universe `S` and the cluster root `c`. -/
structure BfsInv (adj : String → List String) (S : Finset String) (c : String)
    (queue visited remaining : List String) : Prop where
  nodup : remaining.Nodup
  disj : ∀ x ∈ visited, x ∉ remaining
  root_vis : c ∈ visited
  queue_ok : ∀ q ∈ queue, q ∈ S ∧ ReachIn adj S c q
  rem_sub : ∀ x ∈ remaining, x ∈ S
  sound : ∀ x ∈ S, x ∉ remaining → ReachIn adj S c x
  frontier : ∀ x ∈ S, x ∉ remaining → x ∉ queue → ∀ n ∈ adj x, n ∉ remaining

theorem bfsInv_step {adj : String → List String} {S : Finset String} {c : String}
    {node : String} {rest visited remaining : List String}
    (inv : BfsInv adj S c (node :: rest) visited remaining) :
    BfsInv adj S c
      (rest ++ (scanNeighbors (adj node) visited remaining []).2.2)
      (scanNeighbors (adj node) visited remaining []).1
      (scanNeighbors (adj node) visited remaining []).2.1 := by
  obtain ⟨hnode_S, hnode_reach⟩ := inv.queue_ok node (List.mem_cons_self _ _)
  have hrmem : ∀ {x}, x ∈ (scanNeighbors (adj node) visited remaining []).2.1 ↔
      x ∈ remaining ∧ (x ∉ adj node ∨ x ∈ visited) :=
    fun {x} => scanNeighbors_remaining_mem _ _ _ _ inv.nodup
  have hvmem : ∀ {x}, x ∈ (scanNeighbors (adj node) visited remaining []).1 ↔
      x ∈ visited ∨ (x ∈ adj node ∧ x ∈ remaining) :=
    fun {x} => scanNeighbors_visited_mem _ _ _ _ inv.nodup
  have hamem : ∀ {x}, x ∈ (scanNeighbors (adj node) visited remaining []).2.2 ↔
      x ∈ adj node ∧ x ∈ remaining ∧ x ∉ visited := by
    intro x
    rw [scanNeighbors_adds_mem _ _ _ _ inv.nodup]
    simp
  -- a node of the new remaining set is an old remaining node not adjacent to `node`
  have hrmem' : ∀ {x}, x ∈ (scanNeighbors (adj node) visited remaining []).2.1 ↔
      x ∈ remaining ∧ x ∉ adj node := by
    intro x
    rw [hrmem]
    constructor
    · rintro ⟨hxr, hxa | hxv⟩
      · exact ⟨hxr, hxa⟩
      · exact absurd hxr (inv.disj x hxv)
    · rintro ⟨hxr, hxa⟩
      exact ⟨hxr, Or.inl hxa⟩
  have hreach_adds : ∀ {x}, x ∈ adj node → x ∈ S → ReachIn adj S c x := by
    intro x hxa hxS
    exact Relation.ReflTransGen.tail hnode_reach ⟨hnode_S, hxS, hxa⟩
  refine ⟨?_, ?_, ?_, ?_, ?_, ?_, ?_⟩
  · exact inv.nodup.sublist (scanNeighbors_remaining_sublist _ _ _ _)
  · intro x hxv
    rw [hvmem] at hxv
    rw [hrmem']
    rintro ⟨hxr, hxa⟩
    rcases hxv with hxv | ⟨hxa', _⟩
    · exact inv.disj x hxv hxr
    · exact hxa hxa'
  · rw [hvmem]; exact Or.inl inv.root_vis
  · intro q hq
    rcases List.mem_append.mp hq with hq | hq
    · exact inv.queue_ok q (List.mem_cons_of_mem _ hq)
    · rw [hamem] at hq
      have hqS := inv.rem_sub q hq.2.1
      exact ⟨hqS, hreach_adds hq.1 hqS⟩
  · intro x hx
    exact inv.rem_sub x ((scanNeighbors_remaining_sublist _ _ _ _).subset hx)
  · intro x hxS hxr
    by_cases hxrold : x ∈ remaining
    · rw [hrmem'] at hxr
      push_neg at hxr
      exact hreach_adds (hxr hxrold) hxS
    · exact inv.sound x hxS hxrold
  · intro x hxS hxr hxq n hna
    rw [List.mem_append] at hxq
    push_neg at hxq
    rw [hrmem']
    rintro ⟨hnr, hna'⟩
    by_cases hxrold : x ∈ remaining
    · -- x was removed by this scan, so it should be among the adds
      have hxa : x ∈ adj node := by
        rw [hrmem'] at hxr
        push_neg at hxr
        exact hxr hxrold
      have hxv : x ∉ visited := fun hv => inv.disj x hv hxrold
      exact hxq.2 (hamem.mpr ⟨hxa, hxrold, hxv⟩)
    · -- x was already discovered before this step
      by_cases hxnode : x = node
      · subst hxnode
        exact hna' hna
      · have hxqold : x ∉ node :: rest := by
          intro hmem
          rcases List.mem_cons.mp hmem with h | h
          · exact hxnode h
          · exact hxq.1 h
        exact inv.frontier x hxS hxrold hxqold n hna hnr

/-- No node reachable from `c` within `S` is still in `remaining` once the
queue has emptied. -/
theorem bfs_terminal_escape {adj : String → List String} {S : Finset String}
    {c : String} {visited remaining : List String}
    (inv : BfsInv adj S c [] visited remaining) :
    ∀ x, ReachIn adj S c x → x ∉ remaining := by
  intro x hre
  induction hre with
  | refl => exact inv.disj c inv.root_vis
  | tail _ hbc ih =>
    obtain ⟨hbS, hyS, hyadj⟩ := hbc
    exact inv.frontier _ hbS ih (by simp) _ hyadj

theorem bfs_correct {adj : String → List String} {S : Finset String} {c : String} :
    ∀ (fuel : ℕ) (queue visited remaining : List String),
      queue.length + remaining.length ≤ fuel →
      BfsInv adj S c queue visited remaining →
      (∀ x, x ∈ (bfsRun adj fuel queue visited remaining).2 ↔
        (x ∈ remaining ∧ ¬ ReachIn adj S c x)) ∧
      (∀ x ∈ (bfsRun adj fuel queue visited remaining).1,
        x ∉ (bfsRun adj fuel queue visited remaining).2) ∧
      List.Sublist (bfsRun adj fuel queue visited remaining).2 remaining := by
  intro fuel
  induction fuel with
  | zero =>
    intro queue visited remaining hfuel inv
    have hrq : remaining = [] := by
      cases remaining with
      | nil => rfl
      | cons a l => simp at hfuel
    subst hrq
    refine ⟨by simp [bfsRun], ?_, ?_⟩
    · intro x _
      simp [bfsRun]
    · simp [bfsRun]
  | succ fuel ih =>
    intro queue visited remaining hfuel inv
    cases queue with
    | nil =>
      have hterm := bfs_terminal_escape inv
      refine ⟨?_, ?_, ?_⟩
      · intro x
        simp only [bfsRun]
        constructor
        · intro hx
          exact ⟨hx, fun hre => hterm x hre hx⟩
        · exact fun h => h.1
      · intro x hx
        simp only [bfsRun] at hx ⊢
        exact inv.disj x hx
      · simp only [bfsRun]
        exact List.Sublist.refl _
    | cons node rest =>
      have hshape : bfsRun adj (fuel + 1) (node :: rest) visited remaining =
          bfsRun adj fuel
            (rest ++ (scanNeighbors (adj node) visited remaining []).2.2)
            (scanNeighbors (adj node) visited remaining []).1
            (scanNeighbors (adj node) visited remaining []).2.1 := rfl
      have hcons := scanNeighbors_conserve (adj node) visited remaining []
      have hfuel' :
          (rest ++ (scanNeighbors (adj node) visited remaining []).2.2).length +
            ((scanNeighbors (adj node) visited remaining []).2.1).length ≤ fuel := by
        rw [List.length_append]
        simp only [List.length_cons, List.length_nil] at hfuel hcons
        omega
      have inv' := bfsInv_step inv
      obtain ⟨hmem, hdisj, hsub⟩ := ih _ _ _ hfuel' inv'
      obtain ⟨hnode_S, hnode_reach⟩ := inv.queue_ok node (List.mem_cons_self _ _)
      have hrmem' : ∀ {x}, x ∈ (scanNeighbors (adj node) visited remaining []).2.1 ↔
          x ∈ remaining ∧ x ∉ adj node := by
        intro x
        rw [scanNeighbors_remaining_mem _ _ _ _ inv.nodup]
        constructor
        · rintro ⟨hxr, hxa | hxv⟩
          · exact ⟨hxr, hxa⟩
          · exact absurd hxr (inv.disj x hxv)
        · rintro ⟨hxr, hxa⟩
          exact ⟨hxr, Or.inl hxa⟩
      rw [hshape]
      refine ⟨?_, hdisj, hsub.trans (scanNeighbors_remaining_sublist _ _ _ _)⟩
      intro x
      rw [hmem]
      constructor
      · rintro ⟨hxr, hre⟩
        exact ⟨(scanNeighbors_remaining_sublist _ _ _ _).subset hxr, hre⟩
      · rintro ⟨hxr, hre⟩
        refine ⟨?_, hre⟩
        rw [hrmem']
        refine ⟨hxr, fun hxa => ?_⟩
        exact hre (Relation.ReflTransGen.tail hnode_reach
          ⟨hnode_S, inv.rem_sub x hxr, hxa⟩)

/-! ## Claim C2, layer 3: component arithmetic -/

theorem stepIn_symm {adj : String → List String}
    (hsym : ∀ a b, b ∈ adj a → a ∈ adj b) {S : Finset String} {x y : String}
    (h : stepIn adj S x y) : stepIn adj S y x :=
  ⟨h.2.1, h.1, hsym _ _ h.2.2⟩

theorem reachIn_symm {adj : String → List String}
    (hsym : ∀ a b, b ∈ adj a → a ∈ adj b) {S : Finset String} {x y : String}
    (h : ReachIn adj S x y) : ReachIn adj S y x :=
  (Relation.ReflTransGen.symmetric fun _ _ hab => stepIn_symm hsym hab) h

theorem mem_componentOf {adj : String → List String} {S : Finset String}
    {x y : String} : y ∈ componentOf adj S x ↔ y ∈ S ∧ ReachIn adj S x y := by
  classical
  unfold componentOf
  exact Finset.mem_filter

theorem componentOf_congr {adj : String → List String}
    (hsym : ∀ a b, b ∈ adj a → a ∈ adj b) {S : Finset String} {x y : String}
    (h : ReachIn adj S x y) : componentOf adj S x = componentOf adj S y := by
  ext z
  rw [mem_componentOf, mem_componentOf]
  constructor
  · rintro ⟨hz, hxz⟩
    exact ⟨hz, Relation.ReflTransGen.trans (reachIn_symm hsym h) hxz⟩
  · rintro ⟨hz, hyz⟩
    exact ⟨hz, Relation.ReflTransGen.trans h hyz⟩

theorem self_mem_componentOf {adj : String → List String} {S : Finset String}
    {x : String} (hx : x ∈ S) : x ∈ componentOf adj S x :=
  mem_componentOf.mpr ⟨hx, Relation.ReflTransGen.refl⟩

theorem reach_avoid_component {adj : String → List String}
    (hsym : ∀ a b, b ∈ adj a → a ∈ adj b) {S : Finset String} {c x : String}
    (hx : x ∉ componentOf adj S c) :
    ∀ {y}, ReachIn adj S x y →
      y ∉ componentOf adj S c ∧ ReachIn adj (S \ componentOf adj S c) x y := by
  intro y h
  induction h with
  | refl => exact ⟨hx, Relation.ReflTransGen.refl⟩
  | @tail b z _ hbc ih =>
    obtain ⟨hbS, hzS, hzadj⟩ := hbc
    have hzC : z ∉ componentOf adj S c := by
      intro hcz
      have hcb : ReachIn adj S c b :=
        Relation.ReflTransGen.tail (mem_componentOf.mp hcz).2 (stepIn_symm hsym ⟨hbS, hzS, hzadj⟩)
      exact ih.1 (mem_componentOf.mpr ⟨hbS, hcb⟩)
    refine ⟨hzC, Relation.ReflTransGen.tail ih.2 ?_⟩
    exact ⟨Finset.mem_sdiff.mpr ⟨hbS, ih.1⟩, Finset.mem_sdiff.mpr ⟨hzS, hzC⟩, hzadj⟩

theorem reachIn_of_sdiff {adj : String → List String} {S C : Finset String}
    {x y : String} (h : ReachIn adj (S \ C) x y) : ReachIn adj S x y := by
  refine Relation.ReflTransGen.mono ?_ h
  rintro a b ⟨ha, hb, hadj⟩
  exact ⟨(Finset.mem_sdiff.mp ha).1, (Finset.mem_sdiff.mp hb).1, hadj⟩

theorem componentOf_sdiff {adj : String → List String}
    (hsym : ∀ a b, b ∈ adj a → a ∈ adj b) {S : Finset String} {c x : String}
    (hx : x ∈ S \ componentOf adj S c) :
    componentOf adj (S \ componentOf adj S c) x = componentOf adj S x := by
  ext z
  rw [mem_componentOf, mem_componentOf]
  obtain ⟨hxS, hxC⟩ := Finset.mem_sdiff.mp hx
  constructor
  · rintro ⟨hz, hxz⟩
    exact ⟨(Finset.mem_sdiff.mp hz).1, reachIn_of_sdiff hxz⟩
  · rintro ⟨hzS, hxz⟩
    have h2 := reach_avoid_component hsym hxC hxz
    exact ⟨Finset.mem_sdiff.mpr ⟨hzS, h2.1⟩, h2.2⟩

theorem numComponents_split {adj : String → List String}
    (hsym : ∀ a b, b ∈ adj a → a ∈ adj b) {S : Finset String} {c : String}
    (hc : c ∈ S) :
    numComponents adj S = 1 + numComponents adj (S \ componentOf adj S c) := by
  unfold numComponents
  have himg : S.image (fun x => componentOf adj S x) =
      insert (componentOf adj S c)
        ((S \ componentOf adj S c).image
          (fun x => componentOf adj (S \ componentOf adj S c) x)) := by
    ext D
    simp only [Finset.mem_image, Finset.mem_insert]
    constructor
    · rintro ⟨x, hxS, rfl⟩
      by_cases hxC : x ∈ componentOf adj S c
      · exact Or.inl (componentOf_congr hsym (mem_componentOf.mp hxC).2).symm
      · refine Or.inr ⟨x, Finset.mem_sdiff.mpr ⟨hxS, hxC⟩, ?_⟩
        exact componentOf_sdiff hsym (Finset.mem_sdiff.mpr ⟨hxS, hxC⟩)
    · rintro (rfl | ⟨x, hx, rfl⟩)
      · exact ⟨c, hc, rfl⟩
      · exact ⟨x, (Finset.mem_sdiff.mp hx).1, (componentOf_sdiff hsym hx).symm⟩
  rw [himg, Finset.card_insert_of_not_mem]
  · omega
  · intro hmem
    rcases Finset.mem_image.mp hmem with ⟨x, hx, hEq⟩
    have hself := @self_mem_componentOf adj _ _ hx
    rw [hEq] at hself
    exact (Finset.mem_sdiff.mp hx).2 hself

/-! ## Claim C2, layer 4: the outer cluster loop -/

theorem countLoop_correct {adj : String → List String}
    (hsym : ∀ a b, b ∈ adj a → a ∈ adj b) :
    ∀ (fuel : ℕ) (remaining visited : List String),
      remaining.length ≤ fuel → remaining.Nodup →
      (∀ x ∈ visited, x ∉ remaining) →
      countLoop adj fuel remaining visited =
        numComponents adj remaining.toFinset := by
  intro fuel
  induction fuel with
  | zero =>
    intro remaining visited hf hnd hdisj
    have hrnil : remaining = [] := by
      cases remaining with
      | nil => rfl
      | cons a l => simp at hf
    subst hrnil
    simp [countLoop, numComponents]
  | succ fuel ih =>
    intro remaining visited hf hnd hdisj
    cases remaining with
    | nil => simp [countLoop, numComponents]
    | cons c rest =>
      have hnd' := List.nodup_cons.mp hnd
      have inv : BfsInv adj (c :: rest).toFinset c [c] (c :: visited) rest := by
        refine ⟨hnd'.2, ?_, List.mem_cons_self _ _, ?_, ?_, ?_, ?_⟩
        · intro x hx
          rcases List.mem_cons.mp hx with rfl | hx'
          · exact hnd'.1
          · intro hr
            exact hdisj x hx' (List.mem_cons_of_mem _ hr)
        · intro q hq
          rcases List.mem_singleton.mp hq with rfl
          exact ⟨by simp, Relation.ReflTransGen.refl⟩
        · intro x hx
          rw [List.mem_toFinset]
          exact List.mem_cons_of_mem _ hx
        · intro x hxS hxr
          rw [List.mem_toFinset] at hxS
          rcases List.mem_cons.mp hxS with rfl | hx'
          · exact Relation.ReflTransGen.refl
          · exact absurd hx' hxr
        · intro x hxS hxr hxq
          rw [List.mem_toFinset] at hxS
          rcases List.mem_cons.mp hxS with rfl | hx'
          · exact absurd (List.mem_singleton.mpr rfl) hxq
          · exact absurd hx' hxr
      have hfb : ([c] : List String).length + rest.length ≤ 1 + rest.length := by simp
      obtain ⟨hmem, hdisj', hsub⟩ :=
        bfs_correct (1 + rest.length) [c] (c :: visited) rest hfb inv
      show 1 + countLoop adj fuel (bfsRun adj (1 + rest.length) [c] (c :: visited) rest).2
            (bfsRun adj (1 + rest.length) [c] (c :: visited) rest).1 =
          numComponents adj (c :: rest).toFinset
      have hlen : (bfsRun adj (1 + rest.length) [c] (c :: visited) rest).2.length ≤ fuel := by
        have := hsub.length_le
        simp only [List.length_cons] at hf
        omega
      have hnd2 : (bfsRun adj (1 + rest.length) [c] (c :: visited) rest).2.Nodup :=
        hnd'.2.sublist hsub
      rw [ih _ _ hlen hnd2 hdisj']
      have hset : (bfsRun adj (1 + rest.length) [c] (c :: visited) rest).2.toFinset =
          (c :: rest).toFinset \ componentOf adj (c :: rest).toFinset c := by
        ext x
        rw [List.mem_toFinset, hmem x, Finset.mem_sdiff, mem_componentOf]
        simp only [List.mem_toFinset]
        constructor
        · rintro ⟨hxr, hre⟩
          exact ⟨List.mem_cons_of_mem _ hxr, fun hc => hre hc.2⟩
        · rintro ⟨hxS, hnc⟩
          rcases List.mem_cons.mp hxS with hxc | hx'
          · exact absurd ⟨hxS, hxc ▸ Relation.ReflTransGen.refl⟩ hnc
          · exact ⟨hx', fun hre => hnc ⟨hxS, hre⟩⟩
      rw [hset, ← numComponents_split hsym (by simp : c ∈ (c :: rest).toFinset)]

/-! ## Claim C2, layer 5: the adjacency built by set_model is symmetric -/

theorem mem_addNeighbor_elim {g : String → List String} {p q w u : String}
    (h : u ∈ addNeighbor g p q w) : (w = p ∧ u = q) ∨ u ∈ g w := by
  unfold addNeighbor at h
  by_cases hw : w = p
  · rw [if_pos hw] at h
    rcases List.mem_insert_iff.mp h with rfl | hu
    · exact Or.inl ⟨hw, rfl⟩
    · subst hw
      exact Or.inr hu
  · rw [if_neg hw] at h
    exact Or.inr h

theorem mem_addNeighbor_mono {g : String → List String} {p q w u : String}
    (h : u ∈ g w) : u ∈ addNeighbor g p q w := by
  unfold addNeighbor
  by_cases hw : w = p
  · rw [if_pos hw]
    subst hw
    exact List.mem_insert_iff.mpr (Or.inr h)
  · rw [if_neg hw]
    exact h

theorem mem_addNeighbor_self {g : String → List String} {p q : String} :
    q ∈ addNeighbor g p q p := by
  unfold addNeighbor
  rw [if_pos rfl]
  exact List.mem_insert_iff.mpr (Or.inl rfl)

theorem addPair_symm {f : String → List String} {a b : String}
    (h : ∀ x y, y ∈ f x → x ∈ f y) :
    ∀ x y, y ∈ addNeighbor (addNeighbor f a b) b a x →
      x ∈ addNeighbor (addNeighbor f a b) b a y := by
  intro x y hxy
  rcases mem_addNeighbor_elim hxy with ⟨rfl, rfl⟩ | hxy1
  · exact mem_addNeighbor_mono mem_addNeighbor_self
  · rcases mem_addNeighbor_elim hxy1 with ⟨rfl, rfl⟩ | hxy2
    · exact mem_addNeighbor_self
    · exact mem_addNeighbor_mono (mem_addNeighbor_mono (h x y hxy2))

theorem linkStep_symm {sids : List String}
    {st : (String → List String) × (String → Option (EntityKind × String))}
    {p : String × Link} (h : ∀ x y, y ∈ st.1 x → x ∈ st.1 y) :
    ∀ x y, y ∈ (linkStep sids st p).1 x → x ∈ (linkStep sids st p).1 y := by
  unfold linkStep
  split_ifs with hv
  · dsimp only
    exact addPair_symm h
  · exact h

theorem foldl_linkStep_symm {sids : List String} :
    ∀ (l : List (String × Link))
      (st : (String → List String) × (String → Option (EntityKind × String))),
      (∀ x y, y ∈ st.1 x → x ∈ st.1 y) →
      ∀ x y, y ∈ (l.foldl (linkStep sids) st).1 x →
        x ∈ (l.foldl (linkStep sids) st).1 y := by
  intro l
  induction l with
  | nil => intro st h; exact h
  | cons p rest ih =>
    intro st h
    simp only [List.foldl_cons]
    exact ih _ (linkStep_symm h)

theorem mkModel_adjacency_symm (spaces : List Space) (links : List Link) :
    ∀ x y, y ∈ (mkModel spaces links).adjacency x →
      x ∈ (mkModel spaces links).adjacency y := by
  show ∀ x y, y ∈ ((buildDict Link.id links).foldl
      (linkStep ((buildDict Space.id spaces).map (·.1)))
      ((fun _ => []), buildSpaceIndex (buildDict Space.id spaces))).1 x → _
  exact foldl_linkStep_symm _ _ (fun x y hx => by simp at hx)

/-! ## Claim C2: assembly -/

theorem count_clusters_eq_numComponents {m : Model}
    (hsym : ∀ a b, b ∈ m.adjacency a → a ∈ m.adjacency b)
    {l : List String} (hnd : l.Nodup) :
    count_clusters m l = numComponents m.adjacency l.toFinset :=
  countLoop_correct hsym l.length l [] (le_refl _) hnd (by simp)

theorem includedList_nodup {m : Model} {ps : PresenceState}
    (hnd : (spaceIds m).Nodup) : (includedList m ps).Nodup :=
  (hnd.filter _).filter _

/-- C2: in `_recalculate_totals`, if no space is occupied or no occupied
space is included, the total is 0; otherwise the cluster count equals the
number of connected components of the occupied-and-included set, where two
such spaces are in the same component exactly when they are joined by a
path of adjacency edges whose nodes all lie in that set (`ReachIn`), and
the candidate total before the smoothing clamp is this count floored at 1. -/
theorem C2_totals_components :
    ∀ spaces links m es ps, set_model spaces links = Except.ok (m, es) →
      (occupiedList m ps = [] → (recalculate_totals m ps).total_estimated = 0) ∧
      (includedList m ps = [] → (recalculate_totals m ps).total_estimated = 0) ∧
      (count_clusters m (includedList m ps) =
        numComponents m.adjacency (includedList m ps).toFinset) ∧
      (recalcCandidate m ps =
        max ((numComponents m.adjacency (includedList m ps).toFinset : ℤ)) 1) := by
  intro spaces links m es ps hok
  obtain ⟨hm, _⟩ := set_model_ok_elim hok
  have hsym : ∀ a b, b ∈ m.adjacency a → a ∈ m.adjacency b := by
    subst hm
    exact mkModel_adjacency_symm spaces links
  have hnd : (spaceIds m).Nodup := by
    subst hm
    exact buildDict_keys_nodup Space.id spaces
  have hcc : count_clusters m (includedList m ps) =
      numComponents m.adjacency (includedList m ps).toFinset :=
    count_clusters_eq_numComponents hsym (includedList_nodup hnd)
  refine ⟨?_, ?_, hcc, ?_⟩
  · intro h0
    simp only [recalculate_totals]
    rw [if_pos h0]
  · intro h0
    simp only [recalculate_totals]
    by_cases hocc : occupiedList m ps = []
    · rw [if_pos hocc]
    · rw [if_neg hocc, if_pos h0]
  · unfold recalcCandidate
    rw [hcc]

/-- Witness for `C2_totals_components` at the demo model with both spaces
occupied (living via its sensor, kitchen via link propagation). -/
theorem C2_totals_components_witness :
    (occupiedList demoME.1 propagatedES.state = [] →
      (recalculate_totals demoME.1 propagatedES.state).total_estimated = 0) ∧
    (includedList demoME.1 propagatedES.state = [] →
      (recalculate_totals demoME.1 propagatedES.state).total_estimated = 0) ∧
    (count_clusters demoME.1 (includedList demoME.1 propagatedES.state) =
      numComponents demoME.1.adjacency
        (includedList demoME.1 propagatedES.state).toFinset) ∧
    (recalcCandidate demoME.1 propagatedES.state =
      max ((numComponents demoME.1.adjacency
        (includedList demoME.1 propagatedES.state).toFinset : ℤ)) 1) :=
  C2_totals_components [demoLiving, demoKitchen] [demoLink] demoME.1 demoME.2
    propagatedES.state rfl

end PresenceGraph
